import Mathlib

/-! MeetingMind: the real-time transcription and insight pipeline.

A shallow embedding of `backend/src/websocket/audio-handler.js`
(class `AudioStreamHandler`).

Conventions of the embedding.

* A JavaScript string is a `String`; `Array.prototype.join(' ')` is
  `" ".intercalate`; a template literal is string concatenation. Where the
  code counts the UTF-16 code units of a string (`substring`), the string is
  the list of its code units.
* Every value obtained from the environment (`uuidv4()`, `new Date()`,
  `Date.now()`, the settlement of an awaited promise of an external
  collaborator) is an explicit input of the function that obtains it.
* A function body is a value of `Run α`: the calls it makes, in program order,
  followed by the way it completes (a value, or the error it throws or
  rejects with). `await` of a rejected promise and a thrown exception both
  end the body, unless they happen inside `Run.tryCatch`.
* Arrays that are shared by reference (the `transcriptBuffer` of one
  `handleConnection` call) live in a heap of closures and are referred to by
  the index of the call that created them.
-/

namespace MeetingMind

/-! ## Values -/

/-- The errors a body can throw or reject with. -/
inductive JsError where
  | typeError
  | syntaxError
  | rejected
  | referenceError
  deriving DecidableEq, Repr

/-- The value `JSON.parse` returns. Numbers are kept as integers: the code
only consults their truthiness. -/
inductive Json where
  | null
  | bool (b : Bool)
  | num (n : Int)
  | str (s : String)
  | arr (items : List Json)
  | obj (fields : List (String × Json))
  deriving Repr

/-- A JavaScript `Date` object: a time value in milliseconds, or `Invalid Date`. -/
inductive JsDate where
  | valid (ms : Int)
  | invalid
  deriving DecidableEq, Repr

/-- JavaScript truthiness of a parsed JSON value. -/
def Json.truthy : Json → Bool
  | .null => false
  | .bool b => b
  | .num n => n != 0
  | .str s => s != ""
  | .arr _ => true
  | .obj _ => true

/-- Property read `value.key` for a key that is not built in: `none` is
`undefined`. Only objects created by `JSON.parse` carry such keys. -/
def Json.get (key : String) : Json → Option Json
  | .obj fields => (fields.find? (fun kv => kv.1 == key)).map Prod.snd
  | _ => none

/-! ## Provider events -/

/-- One entry of `alternative.words`. -/
structure Word where
  speaker : Option Nat
  deriving DecidableEq, Repr

/-- One entry of `channel.alternatives`. The confidence is an opaque score
that the handler copies. -/
structure Alternative where
  transcript : String
  confidence : Nat
  words : Option (List Word)
  deriving DecidableEq, Repr

/-- The `channel` field of a transcription event. -/
structure Channel where
  alternatives : List Alternative
  deriving DecidableEq, Repr

/-- The argument of the `transcriptReceived` callback. -/
structure Transcription where
  channel : Option Channel
  is_final : Bool
  deriving DecidableEq, Repr

/-- The object `transcriptData` built at lines 54-62. -/
structure TranscriptData where
  id : String
  meetingId : String
  text : String
  speaker : String
  timestamp : Nat
  isFinal : Bool
  confidence : Nat
  deriving DecidableEq, Repr

/-- The `data` argument of `prisma.transcript.create` (lines 69-75). -/
structure TranscriptRow where
  meetingId : String
  content : String
  speaker : String
  timestamp : Nat
  confidence : Nat
  deriving DecidableEq, Repr

/-- One element of the `data` argument of `prisma.actionItem.createMany`
(lines 150-156). A field the item lacks is `none` (`undefined`); `deadline`
is `none` for `null`. -/
structure ActionItemRow where
  meetingId : String
  task : Option Json
  owner : Option Json
  deadline : Option JsDate
  status : String
  deriving Repr

/-- The object returned by `generateSummary` (lines 210-214). -/
structure Summary where
  summary : String
  keyPoints : List String
  decisions : List String
  deriving DecidableEq, Repr

/-- The `data` argument of `prisma.meeting.update` (lines 173-179). -/
structure MeetingUpdate where
  status : String
  endedAt : Nat
  summary : String
  keyPoints : List String
  duration : Int
  deriving DecidableEq, Repr

/-- The message handed to `broadcast`. -/
inductive Message where
  | TRANSCRIPT (data : TranscriptData)
  | INSIGHTS (data : Json)
  deriving Repr

/-- The payload of a job added to the post-processing queue: the keys the
object literal has. -/
structure JobPayload where
  meetingId : Option String
  summary : Option Summary
  userId : Option String
  deriving DecidableEq, Repr

/-- The calls a body makes, each with its arguments as they are at the moment
of the call. `chatCompletionsCreate` is the call of line 133 and
`summaryCompletionsCreate` the call of line 202, whose prompt is given by its
UTF-16 code units: `substring` can cut a surrogate pair, and what is left is
then no sequence of characters. -/
inductive Call where
  | transcriptCreate (data : TranscriptRow)
  | processRealtimeInsights (meetingId : String) (buffer : List TranscriptData)
  | broadcast (meetingId : String) (message : Message)
  | chatCompletionsCreate (prompt : String) (jsonObject : Bool)
  | summaryCompletionsCreate (prompt : List Nat)
  | actionItemCreateMany (data : List ActionItemRow)
  | consoleError
  | meetingUpdate (id : String) (data : MeetingUpdate)
  | queueAdd (name : String) (payload : JobPayload)
  | dgLive (dgConnection : Nat)
  deriving Repr

/-! ## Bodies -/

/-- The run of a body: the calls it made, then its completion. -/
structure Run (α : Type) where
  calls : List Call
  result : Except JsError α

namespace Run

/-- Complete with a value. -/
def ret {α : Type} (a : α) : Run α := ⟨[], .ok a⟩

/-- Throw. -/
def throw {α : Type} (e : JsError) : Run α := ⟨[], .error e⟩

/-- Sequencing: the second body runs only if the first completes normally. -/
def bind {α β : Type} (m : Run α) (f : α → Run β) : Run β :=
  match m.result with
  | .ok a => ⟨m.calls ++ (f a).calls, (f a).result⟩
  | .error e => ⟨m.calls, .error e⟩

/-- A call whose result is not awaited, or cannot fail. -/
def call (c : Call) : Run Unit := ⟨[c], .ok ()⟩

/-- The statement `await c` where the promise settles as `outcome`. -/
def await {α : Type} (c : Call) (outcome : Except JsError α) : Run α := ⟨[c], outcome⟩

/-- A value that evaluates to `outcome` without making a call. -/
def lift {α : Type} (outcome : Except JsError α) : Run α := ⟨[], outcome⟩

/-- The statement `try { body } catch (error) { handler }`. -/
def tryCatch {α : Type} (body : Run α) (handler : JsError → Run α) : Run α :=
  match body.result with
  | .ok a => ⟨body.calls, .ok a⟩
  | .error e => ⟨body.calls ++ (handler e).calls, (handler e).result⟩

instance : Monad Run where
  pure := ret
  bind := bind

end Run

/-! ## The `transcriptReceived` handler (lines 42-89) -/

/-- Line 52: `words[0]?.speaker || 0`. -/
def speakerOf (words : List Word) : Nat :=
  match words.head? with
  | some w => w.speaker.getD 0
  | none => 0

/-- Line 58: the template literal that builds the label. -/
def speakerLabel (speaker : Nat) : String :=
  "Speaker " ++ toString (speaker + 1)

/-- What one run of the handler obtains from its environment. -/
structure Arrival where
  transcription : Transcription
  uuid : String
  now : Nat
  write : Except JsError Unit

/-- Lines 43-62: the early return and the construction of `transcriptData`.
`none` is the early return of line 44. -/
def buildTranscriptData (meetingId : String) (a : Arrival) : Option TranscriptData :=
  match a.transcription.channel with
  | none => none
  | some channel =>
    match channel.alternatives.head? with
    | none => none
    | some alternative =>
      let text := alternative.transcript
      let isFinal := a.transcription.is_final
      let words := alternative.words.getD []
      let speaker := speakerOf words
      some { id := a.uuid, meetingId := meetingId, text := text,
             speaker := speakerLabel speaker, timestamp := a.now,
             isFinal := isFinal, confidence := alternative.confidence }

/-- Line 114: `buffer.slice(-5).map(t => t.text).join(' ')`. -/
def recentText (buffer : List TranscriptData) : String :=
  " ".intercalate ((buffer.drop (buffer.length - 5)).map (fun t => t.text))

/-- The handler body for one event, run from its first statement to its last
with no other handler of the same connection in between. It returns the
contents of `transcriptBuffer` afterwards and the run of the body. -/
def onTranscriptReceived (meetingId : String) (transcriptBuffer : List TranscriptData)
    (a : Arrival) : List TranscriptData × Run Unit :=
  match buildTranscriptData meetingId a with
  | none => (transcriptBuffer, Run.ret ())
  | some transcriptData =>
    if transcriptData.isFinal then
      let pushed := transcriptBuffer ++ [transcriptData]
      (pushed, do
        Run.await (.transcriptCreate
          { meetingId := meetingId, content := transcriptData.text,
            speaker := transcriptData.speaker, timestamp := transcriptData.timestamp,
            confidence := transcriptData.confidence }) a.write
        if pushed.length % 5 = 0 then
          Run.call (.processRealtimeInsights meetingId pushed)
        Run.call (.broadcast meetingId (.TRANSCRIPT transcriptData)))
    else
      (transcriptBuffer, Run.call (.broadcast meetingId (.TRANSCRIPT transcriptData)))

/-- The state of one connection as seen from outside: its buffer and the
calls its handlers have made so far. -/
structure ConnState where
  buffer : List TranscriptData
  calls : List Call

/-- One event handled on a connection. -/
def ConnState.handle (meetingId : String) (s : ConnState) (a : Arrival) : ConnState :=
  let r := onTranscriptReceived meetingId s.buffer a
  { buffer := r.1, calls := s.calls ++ r.2.calls }

/-- A sequence of events handled one at a time in arrival order. -/
def handleAll (meetingId : String) (s : ConnState) (arrivals : List Arrival) : ConnState :=
  arrivals.foldl (ConnState.handle meetingId) s

/-- The input texts of the invocations of `processRealtimeInsights` among
some calls, in order: each is the `recentText` the invocation computes from
the buffer it is handed. -/
def insightInputs (calls : List Call) : List String :=
  calls.filterMap (fun c =>
    match c with
    | .processRealtimeInsights _ buffer => some (recentText buffer)
    | _ => none)

/-- The segment an event appends, if it appends one. -/
def finalSegment (meetingId : String) (a : Arrival) : Option TranscriptData :=
  match buildTranscriptData meetingId a with
  | some t => if t.isFinal then some t else none
  | none => none

/-! ## `broadcast` (lines 232-240) -/

/-- One member of `wss.clients`. `meetingId` is the last segment of the URL the
client connected with (line 21); `readyState` is 1 for `WebSocket.OPEN`. -/
structure Client where
  id : Nat
  meetingId : String
  readyState : Nat
  deriving DecidableEq, Repr

/-- One `client.send(JSON.stringify(message))`. -/
structure Delivery where
  client : Client
  message : Message
  deriving Repr

set_option linter.unusedVariables false in
/-- Lines 232-240: the `forEach` over `wss.clients`, in their order. -/
def broadcast (clients : List Client) (meetingId : String) (message : Message) :
    List Delivery :=
  (clients.filter (fun client => client.readyState == 1)).map
    (fun client => { client := client, message := message })

/-! ## `processRealtimeInsights` (lines 113-162) -/

/-- One entry of `completion.choices`: its `message.content`, `none` for `null`. -/
structure Choice where
  content : Option String
  deriving DecidableEq, Repr

/-- The value a chat completion resolves with. -/
structure Completion where
  choices : List Choice
  deriving DecidableEq, Repr

/-- The expression `completion.choices[0].message.content`: reading `message`
of a missing first choice throws. -/
def messageContent (completion : Completion) : Except JsError (Option String) :=
  match completion.choices.head? with
  | some choice => .ok choice.content
  | none => .error .typeError

/-- Lines 117-130: the prompt template. -/
def insightsPrompt (recentText : String) : String :=
  "\n    Analyze this meeting segment and extract:\n" ++
  "    1. Any action items (who needs to do what by when)\n" ++
  "    2. Key decisions made\n" ++
  "    3. Important topics discussed\n" ++
  "    \n" ++
  "    Text: \"" ++ recentText ++ "\"\n" ++
  "    \n" ++
  "    Return JSON format:\n" ++
  "    \x7b\n" ++
  "      \"actionItems\": [\x7b\"task\": \"\", \"owner\": \"\", \"deadline\": \"\"\x7d],\n" ++
  "      \"decisions\": [],\n" ++
  "      \"topics\": []\n" ++
  "    \x7d"

/-- Property read `value.key` as a statement: it throws on `null`. -/
def Json.prop (key : String) (value : Json) : Except JsError (Option Json) :=
  match value with
  | .null => .error .typeError
  | v => .ok (v.get key)

/-- Truthiness of `value?.length` (line 148), `none` being `undefined`. -/
def lengthTruthy : Option Json → Bool
  | none => false
  | some .null => false
  | some (.arr items) => items.length != 0
  | some (.str s) => s != ""
  | some (.obj fields) =>
    match (Json.obj fields).get "length" with
    | some v => v.truthy
    | none => false
  | some (.bool _) => false
  | some (.num _) => false

/-- The arrow function of lines 150-156, applied to one item. -/
def actionItemRow (newDate : Json → JsDate) (meetingId : String) (item : Json) :
    Except JsError ActionItemRow := do
  let task ← item.prop "task"
  let owner ← item.prop "owner"
  let deadline ← item.prop "deadline"
  pure { meetingId := meetingId, task := task, owner := owner,
         deadline := (match deadline with
           | some d => if d.truthy then some (newDate d) else none
           | none => none),
         status := "PENDING" }

/-- The expression `insights.actionItems.map(item => ...)` (line 150): only an
array has a `map` method. -/
def actionItemRows (newDate : Json → JsDate) (meetingId : String) (actionItems : Option Json) :
    Except JsError (List ActionItemRow) :=
  match actionItems with
  | some (.arr items) => items.mapM (actionItemRow newDate meetingId)
  | _ => .error .typeError

/-- Lines 113-162. `jsonParse` is `JSON.parse` and `newDate` is the `Date`
constructor; `completion` is how the language-model call settles and
`createMany` how the action-item write settles. A `null` content reaches
`JSON.parse` as the text `null`. -/
def processRealtimeInsights (jsonParse : String → Except JsError Json) (newDate : Json → JsDate)
    (meetingId : String) (buffer : List TranscriptData)
    (completion : Except JsError Completion) (createMany : Except JsError Unit) : Run Unit :=
  let recentText := recentText buffer
  let prompt := insightsPrompt recentText
  Run.tryCatch
    (do
      let completion ← Run.await (.chatCompletionsCreate prompt true) completion
      let content ← Run.lift (messageContent completion)
      let insights ← Run.lift (jsonParse (content.getD "null"))
      Run.call (.broadcast meetingId (.INSIGHTS insights))
      let actionItems ← Run.lift (insights.prop "actionItems")
      if lengthTruthy actionItems then
        let data ← Run.lift (actionItemRows newDate meetingId actionItems)
        Run.await (.actionItemCreateMany data) createMany)
    (fun _ => Run.call .consoleError)

/-! ## `extractSection` and `extractList` (lines 242-252) -/

/-- The characters matched by `\s`, which are also those removed by `trim()`. -/
def isWhiteSpace (c : Char) : Bool :=
  let n := c.toNat
  n == 9 || n == 10 || n == 11 || n == 12 || n == 13 || n == 32 || n == 160 || n == 5760
    || (8192 ≤ n && n ≤ 8202) || n == 8232 || n == 8233 || n == 8239 || n == 8287
    || n == 12288 || n == 65279

/-- The character `\n`. -/
def newline : Char := Char.ofNat 10

/-- Case folding of the `i` flag, for comparison with an ASCII pattern: an
ASCII letter folds to its upper case, and no character outside ASCII folds to
an ASCII character. -/
def foldCase (c : Char) : Char :=
  if 97 ≤ c.toNat ∧ c.toNat ≤ 122 then Char.ofNat (c.toNat - 32) else c

/-- The section name as a pattern at the head of the text: the rest of the text
after it when it matches. The section names have no regular-expression
operator in them. -/
def matchLiteral : List Char → List Char → Option (List Char)
  | [], text => some text
  | _ :: _, [] => none
  | p :: ps, c :: cs => if foldCase p == foldCase c then matchLiteral ps cs else none

/-- The group `([^\n]+)` at the end of a pattern: greedy, one character at least. -/
def matchLine (text : List Char) : Option (List Char) :=
  match text.takeWhile (fun c => c != newline) with
  | [] => none
  | line => some line

/-- The pattern `\s*([^\n]+)`: the white space is taken greedily and given
back one character at a time until the group matches. -/
def matchSpacesLine : List Char → Option (List Char)
  | [] => none
  | c :: cs =>
    if isWhiteSpace c then
      match matchSpacesLine cs with
      | some line => some line
      | none => matchLine (c :: cs)
    else matchLine (c :: cs)

/-- The pattern `:?\s*([^\n]+)`: the colon is taken when present, and given
back when the rest does not match. -/
def matchColonSpacesLine (text : List Char) : Option (List Char) :=
  match text with
  | [] => matchSpacesLine []
  | c :: cs =>
    if c == Char.ofNat 58 then
      match matchSpacesLine cs with
      | some line => some line
      | none => matchSpacesLine (c :: cs)
    else matchSpacesLine (c :: cs)

/-- The first position, from the left, where a pattern matches. -/
def firstMatch {α : Type} (pattern : List Char → Option α) : List Char → Option α
  | [] => pattern []
  | c :: cs =>
    match pattern (c :: cs) with
    | some r => some r
    | none => firstMatch pattern cs

/-- The method `trim()`. -/
def trim (text : List Char) : List Char :=
  ((text.dropWhile isWhiteSpace).reverse.dropWhile isWhiteSpace).reverse

/-- Lines 242-246. -/
def extractSection (text : String) (sectionName : String) : String :=
  match firstMatch (fun t => (matchLiteral sectionName.toList t).bind matchColonSpacesLine)
      text.toList with
  | some group => String.mk (trim group)
  | none => ""

/-- The group `([\s\S]*?)` before `(?=\n\n|$)`: the shortest run of characters
that is followed by two newlines or by the end of the text. -/
def lazyUntilBlankLine : List Char → List Char
  | [] => []
  | [c] => [c]
  | c :: d :: cs =>
    if c == newline && d == newline then [] else c :: lazyUntilBlankLine (d :: cs)

/-- The pattern `:?\s*([\s\S]*?)(?=\n\n|$)`. The group and the lookahead match
from every position, so the greedy colon and white space are never given back. -/
def matchColonSpacesBlock (text : List Char) : Option (List Char) :=
  let afterColon := match text with
    | [] => []
    | c :: cs => if c == Char.ofNat 58 then cs else c :: cs
  some (lazyUntilBlankLine (afterColon.dropWhile isWhiteSpace))

/-- The method `split('\n')`. -/
def splitLines : List Char → List (List Char)
  | [] => [[]]
  | c :: cs =>
    if c == newline then [] :: splitLines cs
    else
      match splitLines cs with
      | [] => [[c]]
      | line :: lines => (c :: line) :: lines

/-- The two bullet markers of line 251: a hyphen, and the three characters the
source file has in the second literal. -/
def isBulletLine (line : List Char) : Bool :=
  [Char.ofNat 45].isPrefixOf (trim line)
    || [Char.ofNat 226, Char.ofNat 8364, Char.ofNat 162].isPrefixOf (trim line)

/-- Lines 248-252. -/
def extractList (text : String) (sectionName : String) : List String :=
  match firstMatch (fun t => (matchLiteral sectionName.toList t).bind matchColonSpacesBlock)
      text.toList with
  | some group => ((splitLines group).filter isBulletLine).map String.mk
  | none => []

/-! ## `generateSummary`, `queuePostProcessing`, `finalizeMeeting` (lines 164-230) -/

/-- The UTF-16 code units of a character: itself below U+10000, and a high
and a low surrogate from there on. -/
def utf16Units (c : Char) : List Nat :=
  if c.toNat < 65536 then [c.toNat]
  else [55296 + (c.toNat - 65536) / 1024, 56320 + (c.toNat - 65536) % 1024]

/-- The UTF-16 code units of a sequence of characters. -/
def utf16Chars : List Char → List Nat
  | [] => []
  | c :: cs => utf16Units c ++ utf16Chars cs

/-- A string as JavaScript holds it: its UTF-16 code units. The `length` of the
string is the length of this list. -/
def utf16 (text : String) : List Nat :=
  utf16Chars text.toList

/-- The method `substring(0, 15000)`: the first 15000 code units. -/
def substring15000 (transcript : String) : List Nat :=
  (utf16 transcript).take 15000

/-- Lines 189-200: the prompt template, in code units. -/
def summaryPrompt (transcript : String) : List Nat :=
  utf16 ("\n    Generate a comprehensive meeting summary from this transcript:\n" ++
    "    \n" ++
    "    ") ++ substring15000 transcript ++
  utf16 (" // Limit tokens\n" ++
    "    \n" ++
    "    Return:\n" ++
    "    1. Executive summary (2-3 sentences)\n" ++
    "    2. Key discussion points (bullet points)\n" ++
    "    3. Decisions made\n" ++
    "    4. Action items with owners\n" ++
    "    5. Follow-up topics\n" ++
    "    ")

/-- Lines 188-215. Calling `match` on a `null` content throws. -/
def generateSummary (transcript : String) (completion : Except JsError Completion) :
    Run Summary := do
  let completion ← Run.await (.summaryCompletionsCreate (summaryPrompt transcript)) completion
  let content ← Run.lift (messageContent completion)
  match content with
  | none => Run.throw .typeError
  | some content =>
    pure { summary := extractSection content "Executive summary",
           keyPoints := extractList content "Key discussion points",
           decisions := extractList content "Decisions made" }

/-- Line 219: `require('bull')`. The file is an ES module (it has `import` and
`export` statements), where `require` is not defined: evaluating the
identifier throws. -/
def requireBull : Run Unit :=
  Run.throw .referenceError

/-- Lines 222-225: the object literal of the job `generate-followup`. -/
def followupPayload (meetingId : String) (summary : Summary) : JobPayload :=
  { meetingId := some meetingId, summary := some summary, userId := none }

/-- Lines 227-229: the object literal of the job `crm-sync`. -/
def crmSyncPayload (meetingId : String) : JobPayload :=
  { meetingId := some meetingId, summary := none, userId := none }

/-- Lines 217-230: the `require` of line 219 comes first, and the two `add`
calls are the statements after it. -/
def queuePostProcessing (meetingId : String) (summary : Summary)
    (addFollowup addCrmSync : Except JsError Unit) : Run Unit := do
  requireBull
  Run.await (.queueAdd "generate-followup" (followupPayload meetingId summary)) addFollowup
  Run.await (.queueAdd "crm-sync" (crmSyncPayload meetingId)) addCrmSync

/-- The value stored in `activeStreams` (lines 105-110). `dgConnection` and
`transcriptBuffer` are references: the index of the `handleConnection` call
that created the objects. -/
structure StreamInfo where
  ws : Nat
  dgConnection : Nat
  startTime : Nat
  transcriptBuffer : Nat
  deriving DecidableEq, Repr

/-- The variables of one `handleConnection` call that its callbacks capture. -/
structure Closure where
  ws : Nat
  meetingId : String
  transcriptBuffer : List TranscriptData
  deriving DecidableEq, Repr

/-- The state of an `AudioStreamHandler`: `wss.clients`, the `activeStreams`
map in insertion order, and the closures of the `handleConnection` calls made
so far, in call order. -/
structure AudioStreamHandler where
  clients : List Client
  activeStreams : List (String × StreamInfo)
  closures : List Closure
  deriving DecidableEq, Repr

/-- The method `Map.prototype.get`. -/
def mapGet (m : List (String × StreamInfo)) (key : String) : Option StreamInfo :=
  (m.find? (fun kv => kv.1 == key)).map Prod.snd

/-- The method `Map.prototype.set`: the value of a present key is replaced in
place, an absent key is added last. -/
def mapSet : List (String × StreamInfo) → String → StreamInfo → List (String × StreamInfo)
  | [], key, value => [(key, value)]
  | kv :: rest, key, value =>
    if kv.1 == key then (key, value) :: rest else kv :: mapSet rest key value

/-- The method `Map.prototype.delete`. -/
def mapDelete (m : List (String × StreamInfo)) (key : String) : List (String × StreamInfo) :=
  m.filter (fun kv => !(kv.1 == key))

/-- What one run of `finalizeMeeting` obtains from its environment: how the
summary call settles, `new Date()`, `Date.now()`, and how the meeting update
and the two `add` calls settle. -/
structure FinalizeEnv where
  completion : Except JsError Completion
  endedAt : Nat
  dateNow : Nat
  update : Except JsError Unit
  addFollowup : Except JsError Unit
  addCrmSync : Except JsError Unit

/-- Lines 165-183: the statements of `finalizeMeeting` before the last one.
Reading `startTime` of a missing entry throws while the argument of the
update is built. -/
def finalizeBody (st : AudioStreamHandler) (meetingId : String)
    (transcriptBuffer : List TranscriptData) (env : FinalizeEnv) : Run Unit := do
  let fullTranscript := " ".intercalate (transcriptBuffer.map (fun t => t.text))
  let summary ← generateSummary fullTranscript env.completion
  let info ← Run.lift (match mapGet st.activeStreams meetingId with
    | some info => .ok info
    | none => .error .typeError)
  Run.await (.meetingUpdate meetingId
    { status := "COMPLETED", endedAt := env.endedAt, summary := summary.summary,
      keyPoints := summary.keyPoints,
      duration := ((env.dateNow : Int) - (info.startTime : Int)) / 1000 }) env.update
  queuePostProcessing meetingId summary env.addFollowup env.addCrmSync

/-- Lines 164-186: the body, and then `this.activeStreams.delete(meetingId)`
(line 185), which runs only when every statement before it has completed. -/
def finalizeMeeting (st : AudioStreamHandler) (meetingId : String)
    (transcriptBuffer : List TranscriptData) (env : FinalizeEnv) :
    AudioStreamHandler × Run Unit :=
  let body := finalizeBody st meetingId transcriptBuffer env
  match body.result with
  | .ok _ => ({ st with activeStreams := mapDelete st.activeStreams meetingId }, body)
  | .error _ => (st, body)

/-! ## `handleConnection` (lines 28-111) and the events of the server -/

/-- Lines 28-111: a new Deepgram connection and a new empty `transcriptBuffer`
are created, the callbacks are registered, and `activeStreams.set` stores the
entry under `meetingId`. The function has no statement that throws. -/
def handleConnection (st : AudioStreamHandler) (ws : Nat) (meetingId : String) (dateNow : Nat) :
    AudioStreamHandler × Run Unit :=
  let index := st.closures.length
  ({ st with
      closures := st.closures ++ [{ ws := ws, meetingId := meetingId, transcriptBuffer := [] }],
      activeStreams := mapSet st.activeStreams meetingId
        { ws := ws, dgConnection := index, startTime := dateNow, transcriptBuffer := index } },
   Run.call (.dgLive index))

/-- What can happen on the server: a new connection (line 20), a transcription
event on the Deepgram connection of a `handleConnection` call, a run of
`processRealtimeInsights` on the buffer of a call, and the close of the socket
of a call (line 98). -/
inductive Event where
  | connection (ws : Nat) (meetingId : String) (dateNow : Nat)
  | transcriptReceived (conn : Nat) (a : Arrival)
  | insights (conn : Nat) (jsonParse : String → Except JsError Json) (newDate : Json → JsDate)
      (completion : Except JsError Completion) (createMany : Except JsError Unit)
  | close (conn : Nat) (env : FinalizeEnv)

/-- The state after one event. `processRealtimeInsights` reads its buffer and
`wss.clients` and assigns nothing. -/
def AudioStreamHandler.step (st : AudioStreamHandler) : Event → AudioStreamHandler
  | .connection ws meetingId dateNow => (handleConnection st ws meetingId dateNow).1
  | .transcriptReceived conn a =>
    match st.closures[conn]? with
    | some c =>
      let pushed := (onTranscriptReceived c.meetingId c.transcriptBuffer a).1
      { st with closures := st.closures.set conn { c with transcriptBuffer := pushed } }
    | none => st
  | .insights _ _ _ _ _ => st
  | .close conn env =>
    match st.closures[conn]? with
    | some c => (finalizeMeeting st c.meetingId c.transcriptBuffer env).1
    | none => st

/-- The state after a sequence of events. -/
def AudioStreamHandler.run (st : AudioStreamHandler) (events : List Event) : AudioStreamHandler :=
  events.foldl AudioStreamHandler.step st

/-- The segments that a sequence of server events appends to the buffer of the
connection `conn`, whose handler was registered with `meetingId`: those of the
final events on that connection that are not dropped, in arrival order. -/
def appendedTo (conn : Nat) (meetingId : String) (events : List Event) : List TranscriptData :=
  events.filterMap (fun e =>
    match e with
    | .transcriptReceived c a => if c = conn then finalSegment meetingId a else none
    | _ => none)

/-- The text of the `k`-th batch (counting from 0) of five segments. -/
def batchText (segments : List TranscriptData) (k : Nat) : String :=
  " ".intercalate (((segments.drop (5 * k)).take 5).map (fun t => t.text))

/-! ## The aggregator as the specification words it (section 4.4) -/

/-- The session of the specification: the ordered finalized segments, the
count of segments since the last insight batch, and the input texts of the
extractions triggered so far. -/
structure SpecSession where
  segments : List TranscriptData
  sinceLastBatch : Nat
  extractions : List String

/-- The `append` of the specification: append, increment the counter, and when
the counter reaches 5 trigger an extraction over a snapshot of the last 5
segments and reset the counter to 0. -/
def SpecSession.append (s : SpecSession) (segment : TranscriptData) : SpecSession :=
  let segments := s.segments ++ [segment]
  let counter := s.sinceLastBatch + 1
  if counter = 5 then
    { segments := segments, sinceLastBatch := 0,
      extractions := s.extractions ++
        [" ".intercalate ((segments.drop (segments.length - 5)).map (fun t => t.text))] }
  else
    { segments := segments, sinceLastBatch := counter, extractions := s.extractions }

/-- The specification's treatment of one event: only a finalized segment
reaches `append`. -/
def SpecSession.feed (meetingId : String) (s : SpecSession) (a : Arrival) : SpecSession :=
  match finalSegment meetingId a with
  | some t => s.append t
  | none => s

/-- The specification's session after a sequence of events. -/
def specRun (meetingId : String) (arrivals : List Arrival) : SpecSession :=
  arrivals.foldl (SpecSession.feed meetingId) ⟨[], 0, []⟩

/-! ## Example inputs -/

/-- The five events of the specification's example, all final. -/
def exampleArrivals : List Arrival :=
  ["Let's ship v2 by Friday", "I'll own that", "Sounds good", "Also update docs",
    "I'll do the docs"].map (fun text =>
      { transcription :=
          { channel := some { alternatives := [{ transcript := text, confidence := 9,
                                                  words := some [{ speaker := some 0 }] }] },
            is_final := true },
        uuid := "u", now := 0, write := .ok () })

/-- A final event with one alternative, said by provider speaker `speaker`. -/
def finalArrival (text : String) (speaker : Nat) : Arrival :=
  { transcription :=
      { channel := some { alternatives := [{ transcript := text, confidence := 9,
                                              words := some [{ speaker := some speaker }] }] },
        is_final := true },
    uuid := "u", now := 0, write := .ok () }

/-- An interim event with one alternative. -/
def interimArrival (text : String) : Arrival :=
  { transcription :=
      { channel := some { alternatives := [{ transcript := text, confidence := 5,
                                              words := none }] },
        is_final := false },
    uuid := "u", now := 0, write := .ok () }

/-- A server with two connections, for the meetings `m1` and `m2`. -/
def twoMeetings : AudioStreamHandler :=
  (handleConnection (handleConnection ⟨[], [], []⟩ 1 "m1" 100).1 2 "m2" 200).1

/-- A summary call that is rejected. -/
def failingEnv : FinalizeEnv :=
  { completion := .error .rejected, endedAt := 900, dateNow := 900, update := .ok (),
    addFollowup := .ok (), addCrmSync := .ok () }

/-- Events of both meetings, interleaved. -/
def interleavedEvents : List Event :=
  [.transcriptReceived 0 (finalArrival "hello" 0),
   .transcriptReceived 1 (finalArrival "other meeting" 0),
   .transcriptReceived 0 (interimArrival "wor"),
   .insights 0 (fun _ => .error .syntaxError) (fun _ => .invalid) (.error .rejected) (.ok ()),
   .close 1 failingEnv,
   .transcriptReceived 0 (finalArrival "world" 1)]

/-! ## Speaker labels: the handler and the labeler of the specification -/

/-- The provider speaker identifier of an event that is not dropped: that of
the first word of the first alternative, 0 when there is none (line 52). -/
def providerSpeaker (a : Arrival) : Option Nat :=
  match a.transcription.channel with
  | none => none
  | some channel => channel.alternatives.head?.map (fun alternative =>
      speakerOf (alternative.words.getD []))

/-- The labels the handler gives to the events of a session, in arrival order. -/
def codeLabels (meetingId : String) (arrivals : List Arrival) : List String :=
  arrivals.filterMap (fun a => (buildTranscriptData meetingId a).map (fun t => t.speaker))

/-- The labeler of the specification (section 4.3): a table of the identifiers
in first-seen order, and the label of an identifier is its 1-based position. -/
def specLabelsFrom (table : List Nat) : List Nat → List String
  | [] => []
  | identifier :: rest =>
    let table2 := if identifier ∈ table then table else table ++ [identifier]
    ("Speaker " ++ toString (table2.indexOf identifier + 1)) :: specLabelsFrom table2 rest

/-- The labels of the specification for the events of a session. -/
def specLabels (arrivals : List Arrival) : List String :=
  specLabelsFrom [] (arrivals.filterMap providerSpeaker)

/-- A finalization in which every awaited call resolves. -/
def succeedingEnv : FinalizeEnv :=
  { completion := .ok ⟨[⟨some "Executive summary: Done."⟩]⟩, endedAt := 900, dateNow := 900,
    update := .ok (), addFollowup := .ok (), addCrmSync := .ok () }

/-! ## Observations on the calls of `processRealtimeInsights` -/

/-- The value of `insights` after line 139, or the error thrown on the way to
it: by the call, by the read of the content, or by `JSON.parse`. -/
def parsedInsights (jsonParse : String → Except JsError Json)
    (completion : Except JsError Completion) : Except JsError Json := do
  let completion ← completion
  let content ← messageContent completion
  jsonParse (content.getD "null")

/-- Is the call a broadcast of an INSIGHTS message? -/
def Call.isInsights : Call → Bool
  | .broadcast _ (.INSIGHTS _) => true
  | _ => false

/-- Is the call a write of action items? -/
def Call.isActionItemWrite : Call → Bool
  | .actionItemCreateMany _ => true
  | _ => false

/-- The function `JSON.parse` on the two texts of the example below. -/
def exampleParse (text : String) : Except JsError Json :=
  if text = "\x7b\x7d" then .ok (.obj [])
  else if text = "\x7b\"actionItems\":[\x7b\"task\":\"Ship v2\"\x7d]\x7d" then
    .ok (.obj [("actionItems", .arr [.obj [("task", .str "Ship v2")]])])
  else .error .syntaxError

/-- Three clients: one open for `m1`, one open for `m2`, one closed for `m1`. -/
def threeClients : List Client :=
  [⟨1, "m1", 1⟩, ⟨2, "m2", 1⟩, ⟨3, "m1", 3⟩]

/-! ## Observations on the calls of `finalizeMeeting` -/

/-- The meeting updates among some calls, in order. -/
def meetingUpdates (calls : List Call) : List (String × MeetingUpdate) :=
  calls.filterMap (fun c =>
    match c with
    | .meetingUpdate id data => some (id, data)
    | _ => none)

/-- The jobs added to the queue among some calls, in order. -/
def queuedJobs (calls : List Call) : List (String × JobPayload) :=
  calls.filterMap (fun c =>
    match c with
    | .queueAdd name payload => some (name, payload)
    | _ => none)

/-- A finalization in which every awaited call resolves and the model answers
`content`. -/
def envWithResponse (content : String) : FinalizeEnv :=
  { completion := .ok ⟨[⟨some content⟩]⟩, endedAt := 4600, dateNow := 4600,
    update := .ok (), addFollowup := .ok (), addCrmSync := .ok () }

/-- A final segment whose text is the letter `a` repeated `n` times. -/
def longSegment (n : Nat) : TranscriptData :=
  { id := "u", meetingId := "m1", text := String.mk (List.replicate n (Char.ofNat 97)),
    speaker := "Speaker 1", timestamp := 0, isFinal := true, confidence := 9 }

/-! ## Headings in a response text -/

/-- Is the name made of ASCII letters, digits and spaces only? Such a name,
spliced into a regular expression, stands for itself. -/
def isPlainName (name : List Char) : Bool :=
  name.all (fun c => c.isAlphanum || c.toNat == 32)

/-- Does the heading occur in the text at the head, in any letter case? -/
def headingAtHead (heading text : List Char) : Bool :=
  (text.take heading.length).map foldCase == heading.map foldCase

/-- Does the text contain the heading, in any letter case? -/
def containsHeading (heading text : List Char) : Bool :=
  text.tails.any (headingAtHead heading)

/-- Lines put together with one line break between two of them. -/
def joinLines : List (List Char) → List Char
  | [] => []
  | [line] => line
  | line :: next :: others => line ++ newline :: joinLines (next :: others)

/-- Does the line begin, after its leading white space, with a hyphen? -/
def beginsWithHyphen (line : List Char) : Bool :=
  [Char.ofNat 45].isPrefixOf (trim line)

/-- The action-item writes among some calls, in order. -/
def actionItemWrites (calls : List Call) : List (List ActionItemRow) :=
  calls.filterMap (fun c =>
    match c with
    | .actionItemCreateMany data => some data
    | _ => none)

/-- The function `JSON.parse` on the response of the deadline example. -/
def deadlineParse (text : String) : Except JsError Json :=
  if text = "\x7b\"actionItems\":[\x7b\"task\":\"Ship\",\"deadline\":\"next Friday\"\x7d,\x7b\"task\":\"Docs\",\"deadline\":\"2024-05-01\"\x7d,\x7b\"task\":\"Call\",\"deadline\":\"\"\x7d]\x7d"
  then .ok (.obj [("actionItems", .arr
    [.obj [("task", .str "Ship"), ("deadline", .str "next Friday")],
     .obj [("task", .str "Docs"), ("deadline", .str "2024-05-01")],
     .obj [("task", .str "Call"), ("deadline", .str "")]])])
  else .error .syntaxError

/-- The `Date` constructor on the deadlines of the example: `2024-05-01` is a
date, `next Friday` is not. -/
def deadlineDate : Json → JsDate
  | .str "2024-05-01" => .valid 1714521600000
  | _ => .invalid

/-- The deliveries that some calls cause on a server: those of its broadcasts,
each over `wss.clients`. -/
def deliveriesOf (st : AudioStreamHandler) : List Call → List Delivery
  | [] => []
  | .broadcast meetingId message :: rest =>
    broadcast st.clients meetingId message ++ deliveriesOf st rest
  | _ :: rest => deliveriesOf st rest

/-- The example server with one open client of the meeting `m1`. -/
def serverWithClient : AudioStreamHandler :=
  { twoMeetings with clients := [⟨1, "m1", 1⟩] }

/-- A server with one open client on which the meeting `m1` has no entry in
`activeStreams`. -/
def serverWithoutEntry : AudioStreamHandler :=
  { clients := [⟨1, "m1", 1⟩], activeStreams := [], closures := [] }

/-! ## The handler in two parts, around its `await` -/

/-- A handler suspended at the `await` of line 68: the segment it has pushed
and the way its write will settle. -/
structure Suspended where
  transcriptData : TranscriptData
  write : Except JsError Unit

/-- Lines 43-76, up to the `await`: for a final event the push and the start
of the write; for another event the whole handler. It returns the buffer, the
calls made, and the suspended handler if there is one. -/
def handlerStart (meetingId : String) (transcriptBuffer : List TranscriptData) (a : Arrival) :
    List TranscriptData × List Call × Option Suspended :=
  match buildTranscriptData meetingId a with
  | none => (transcriptBuffer, [], none)
  | some transcriptData =>
    if transcriptData.isFinal then
      (transcriptBuffer ++ [transcriptData],
       [.transcriptCreate
          { meetingId := meetingId, content := transcriptData.text,
            speaker := transcriptData.speaker, timestamp := transcriptData.timestamp,
            confidence := transcriptData.confidence }],
       some { transcriptData := transcriptData, write := a.write })
    else
      (transcriptBuffer, [.broadcast meetingId (.TRANSCRIPT transcriptData)], none)

/-- Lines 78-88, from the `await` on: the handler continues when its write
settles, and reads `transcriptBuffer` as it is at that moment. -/
def handlerResume (meetingId : String) (transcriptBuffer : List TranscriptData)
    (s : Suspended) : Run Unit := do
  Run.lift s.write
  if transcriptBuffer.length % 5 = 0 then
    Run.call (.processRealtimeInsights meetingId transcriptBuffer)
  Run.call (.broadcast meetingId (.TRANSCRIPT s.transcriptData))

/-- One turn of the event loop on a connection: a new event starts its
handler, or the oldest suspended handler continues. -/
inductive Turn where
  | start (a : Arrival)
  | resume

/-- A connection with suspended handlers, oldest first. -/
structure Interleaved where
  buffer : List TranscriptData
  suspended : List Suspended
  calls : List Call

/-- The connection after one turn. -/
def Interleaved.turn (meetingId : String) (s : Interleaved) : Turn → Interleaved
  | .start a =>
    let r := handlerStart meetingId s.buffer a
    { buffer := r.1, suspended := s.suspended ++ r.2.2.toList, calls := s.calls ++ r.2.1 }
  | .resume =>
    match s.suspended with
    | [] => s
    | h :: rest =>
      { s with suspended := rest,
               calls := s.calls ++ (handlerResume meetingId s.buffer h).calls }

/-- The connection after a sequence of turns, from an empty buffer. -/
def interleave (meetingId : String) (turns : List Turn) : Interleaved :=
  turns.foldl (Interleaved.turn meetingId) ⟨[], [], []⟩

/-- Six final events, each handled to its end before the next starts, except
that the sixth starts while the fifth awaits its write. -/
def sixthOvertakesFifth : List Turn :=
  [.start (finalArrival "s1" 0), .resume, .start (finalArrival "s2" 0), .resume,
   .start (finalArrival "s3" 0), .resume, .start (finalArrival "s4" 0), .resume,
   .start (finalArrival "s5" 0), .start (finalArrival "s6" 0), .resume, .resume]

/-- Five final events where the fifth starts while the fourth awaits its write. -/
def fifthOvertakesFourth : List Turn :=
  [.start (finalArrival "s1" 0), .resume, .start (finalArrival "s2" 0), .resume,
   .start (finalArrival "s3" 0), .resume,
   .start (finalArrival "s4" 0), .start (finalArrival "s5" 0), .resume, .resume]

/-! ## The processors of the queue (`backend/src/ai/processors.js`) -/

/-- Line 25 of the processors: the `userId` that the `crm-sync` processor
destructures from `job.data`; `none` is `undefined`. -/
def crmSyncUserId (payload : JobPayload) : Option String :=
  payload.userId

/-- Lines 9-12 and 54-57 of the processors: what `generateFollowUpEmail` reads
of `job.data.summary`: the summary text and the key points joined by line
breaks. Reading them of a missing summary throws. -/
def followUpInputs (payload : JobPayload) : Except JsError (String × String) :=
  match payload.summary with
  | some summary => .ok (summary.summary, "\n".intercalate summary.keyPoints)
  | none => .error .typeError

/-! ## `floatTo16BitPCM` (`chrome-extension/src/offscreen/offscreen.js`, lines 92-99) -/

/-- An element of the `Float32Array` of samples (line 61): a number, which is
a rational, or one of the three values that are not on the real line. Every
product of line 96 of such a number, once clamped, is exact in double
precision, so the arithmetic of the rationals is that of the code. -/
inductive Sample where
  | finite (value : ℚ)
  | infinity
  | negInfinity
  | nan

/-- Line 95: `Math.max(-1, Math.min(1, input[i]))`; `none` is `NaN`. -/
def clampSample : Sample → Option ℚ
  | .finite value => some (max (-1) (min 1 value))
  | .infinity => some 1
  | .negInfinity => some (-1)
  | .nan => none

/-- Line 96, the right-hand side: `s < 0 ? s * 0x8000 : s * 0x7FFF`. -/
def scaleSample (s : ℚ) : ℚ :=
  if s < 0 then s * 0x8000 else s * 0x7FFF

/-- Truncation toward zero. -/
def truncate (x : ℚ) : Int :=
  if 0 ≤ x then ⌊x⌋ else ⌈x⌉

/-- The value an `Int16Array` holds after a number is stored in it: the number
truncated toward zero and reduced modulo `2^16` into `-2^15 .. 2^15 - 1`; `NaN`
is stored as 0. -/
def toInt16 : Option ℚ → Int
  | none => 0
  | some x => (truncate x + 32768) % 65536 - 32768

/-- Lines 95-96: the value stored for one sample. A comparison with `NaN` is
false and a product with `NaN` is `NaN`. -/
def convertSample (sample : Sample) : Int :=
  toInt16 ((clampSample sample).map scaleSample)

/-- Lines 94-97: the loop from the index `i` on, over the samples from that
index on. -/
def pcmLoop : List Sample → Nat → List Int → List Int
  | [], _, output => output
  | sample :: rest, i, output => pcmLoop rest (i + 1) (output.set i (convertSample sample))

/-- Lines 92-99: an `Int16Array` of the length of the input, filled with zeros,
is written by the loop. -/
def floatTo16BitPCM (input : List Sample) : List Int :=
  pcmLoop input 0 (List.replicate input.length 0)

/-! ## Lemmas on the handler -/

theorem handle_buffer (meetingId : String) (s : ConnState) (a : Arrival) :
    (s.handle meetingId a).buffer = s.buffer ++ (finalSegment meetingId a).toList := by
  unfold ConnState.handle onTranscriptReceived finalSegment
  cases h : buildTranscriptData meetingId a with
  | none => simp
  | some t => by_cases hf : t.isFinal <;> simp [hf]

theorem handle_inputs (meetingId : String) (s : ConnState) (a : Arrival)
    (hw : a.write = .ok ()) :
    insightInputs (s.handle meetingId a).calls = insightInputs s.calls ++
      (match finalSegment meetingId a with
       | some t => if (s.buffer.length + 1) % 5 = 0 then [recentText (s.buffer ++ [t])] else []
       | none => []) := by
  unfold ConnState.handle onTranscriptReceived finalSegment
  cases h : buildTranscriptData meetingId a with
  | none => simp [insightInputs, Run.ret]
  | some t =>
    by_cases hf : t.isFinal
    · by_cases h5 : (s.buffer.length + 1) % 5 = 0 <;>
        simp [hf, h5, hw, insightInputs, Run.await, Run.call, Run.bind, Run.ret, bind, pure]
    · simp [hf, insightInputs, Run.call]

theorem handleAll_snoc (meetingId : String) (s : ConnState) (arrivals : List Arrival)
    (a : Arrival) :
    handleAll meetingId s (arrivals ++ [a]) = (handleAll meetingId s arrivals).handle meetingId a := by
  simp [handleAll, List.foldl_append]

theorem specRun_snoc (meetingId : String) (arrivals : List Arrival) (a : Arrival) :
    specRun meetingId (arrivals ++ [a]) = (specRun meetingId arrivals).feed meetingId a := by
  simp [specRun, List.foldl_append]

theorem handleAll_buffer (meetingId : String) (s : ConnState) (arrivals : List Arrival) :
    (handleAll meetingId s arrivals).buffer
      = s.buffer ++ arrivals.filterMap (finalSegment meetingId) := by
  induction arrivals using List.reverseRecOn with
  | nil => simp [handleAll]
  | append_singleton l a ih =>
    rw [handleAll_snoc, handle_buffer, ih, List.filterMap_append]
    cases h : finalSegment meetingId a <;> simp [h]

theorem batchText_snoc_of_le (segments : List TranscriptData) (t : TranscriptData) (k : Nat)
    (h : 5 * k + 5 ≤ segments.length) :
    batchText (segments ++ [t]) k = batchText segments k := by
  unfold batchText
  rw [List.drop_append_of_le_length (by omega), List.take_append_of_le_length]
  rw [List.length_drop]
  omega

theorem recentText_eq_batchText (buffer : List TranscriptData)
    (h : buffer.length % 5 = 0) (hpos : 0 < buffer.length) :
    recentText buffer = batchText buffer (buffer.length / 5 - 1) := by
  unfold recentText batchText
  have e : 5 * (buffer.length / 5 - 1) = buffer.length - 5 := by omega
  rw [e, List.take_of_length_le]
  rw [List.length_drop]
  omega

/-- The invocations made while handling a sequence of events from an empty
buffer, every transcript write resolving. -/
theorem handleAll_inputs (meetingId : String) (arrivals : List Arrival)
    (hw : ∀ a ∈ arrivals, a.write = .ok ()) :
    insightInputs (handleAll meetingId ⟨[], []⟩ arrivals).calls
      = (List.range ((handleAll meetingId ⟨[], []⟩ arrivals).buffer.length / 5)).map
          (batchText (handleAll meetingId ⟨[], []⟩ arrivals).buffer) := by
  induction arrivals using List.reverseRecOn with
  | nil => simp [handleAll, insightInputs]
  | append_singleton l a ih =>
    have hl : ∀ b ∈ l, b.write = .ok () := fun b hb => hw b (by simp [hb])
    have ha : a.write = .ok () := hw a (by simp)
    rw [handleAll_snoc, handle_inputs _ _ _ ha, handle_buffer, ih hl]
    generalize (handleAll meetingId ⟨[], []⟩ l).buffer = buf
    cases finalSegment meetingId a with
    | none => simp
    | some t =>
      have hlen : (buf ++ [t]).length = buf.length + 1 := by simp
      by_cases h5 : (buf.length + 1) % 5 = 0
      · have hq : (buf.length + 1) / 5 = buf.length / 5 + 1 := by omega
        simp only [Option.toList, hlen, h5, hq, if_true, List.range_succ, List.map_append,
          List.map_cons, List.map_nil]
        congr 1
        · apply List.map_congr_left
          intro k hk
          rw [List.mem_range] at hk
          exact (batchText_snoc_of_le buf t k (by omega)).symm
        · rw [recentText_eq_batchText (buf ++ [t]) (by rw [hlen]; exact h5) (by rw [hlen]; omega),
            hlen, hq]
          rfl
      · have hq : (buf.length + 1) / 5 = buf.length / 5 := by omega
        simp only [Option.toList, hlen, h5, hq, if_false, List.append_nil]
        apply List.map_congr_left
        intro k hk
        rw [List.mem_range] at hk
        exact (batchText_snoc_of_le buf t k (by omega)).symm

/-- The specification's session and the handler agree on segments, counter and
extractions. -/
theorem specRun_eq (meetingId : String) (arrivals : List Arrival)
    (hw : ∀ a ∈ arrivals, a.write = .ok ()) :
    (specRun meetingId arrivals).segments = (handleAll meetingId ⟨[], []⟩ arrivals).buffer
    ∧ (specRun meetingId arrivals).sinceLastBatch
        = (handleAll meetingId ⟨[], []⟩ arrivals).buffer.length % 5
    ∧ (specRun meetingId arrivals).extractions
        = insightInputs (handleAll meetingId ⟨[], []⟩ arrivals).calls := by
  induction arrivals using List.reverseRecOn with
  | nil => simp [specRun, handleAll, insightInputs]
  | append_singleton l a ih =>
    have hl : ∀ b ∈ l, b.write = .ok () := fun b hb => hw b (by simp [hb])
    have ha : a.write = .ok () := hw a (by simp)
    obtain ⟨h1, h2, h3⟩ := ih hl
    rw [handleAll_snoc, handle_inputs _ _ _ ha, handle_buffer, specRun_snoc]
    unfold SpecSession.feed
    cases finalSegment meetingId a with
    | none => simp [h1, h2, h3]
    | some t =>
      unfold SpecSession.append
      by_cases h5 : (specRun meetingId l).sinceLastBatch + 1 = 5
      · have h5b : ((handleAll meetingId ⟨[], []⟩ l).buffer.length + 1) % 5 = 0 := by omega
        simp [h5, h5b, h1, h3, recentText]
      · have h5b : ¬ ((handleAll meetingId ⟨[], []⟩ l).buffer.length + 1) % 5 = 0 := by omega
        simp [h5, h5b, h1, h3]
        omega

theorem step_inputs (meetingId : String) (buffer : List TranscriptData) (a : Arrival)
    (hw : a.write = .ok ()) :
    insightInputs (onTranscriptReceived meetingId buffer a).2.calls =
      (match finalSegment meetingId a with
       | some t => if (buffer.length + 1) % 5 = 0 then [recentText (buffer ++ [t])] else []
       | none => []) := by
  have h := handle_inputs meetingId ⟨buffer, []⟩ a hw
  simpa [ConnState.handle, insightInputs] using h

/-! ## The claims -/

/-! ### Insight batches -/

/-- C1: when events are handled one at a time in arrival order on one
connection and every transcript write resolves, the buffer holds the finalized
segments in order; `n` finalized segments cause exactly `n / 5` invocations of
`processRealtimeInsights` (none while `n < 5`); the invocation number `k`
(counting from 0) takes as input the texts of the five segments `5k+1 .. 5k+5`
joined by single spaces; the handling of one more event invokes it exactly
when that event appends a segment that makes the count a multiple of 5; and
the inputs are those of the specification's since-last-batch counter. -/
theorem insights_every_fifth_segment (meetingId : String) (arrivals : List Arrival)
    (hw : ∀ a ∈ arrivals, a.write = .ok ()) :
    (handleAll meetingId ⟨[], []⟩ arrivals).buffer = arrivals.filterMap (finalSegment meetingId)
    ∧ (insightInputs (handleAll meetingId ⟨[], []⟩ arrivals).calls).length
        = (arrivals.filterMap (finalSegment meetingId)).length / 5
    ∧ ((arrivals.filterMap (finalSegment meetingId)).length < 5 →
        insightInputs (handleAll meetingId ⟨[], []⟩ arrivals).calls = [])
    ∧ (∀ k, k < (arrivals.filterMap (finalSegment meetingId)).length / 5 →
        (((arrivals.filterMap (finalSegment meetingId)).drop (5 * k)).take 5).length = 5
        ∧ (insightInputs (handleAll meetingId ⟨[], []⟩ arrivals).calls)[k]?
          = some (" ".intercalate
              ((((arrivals.filterMap (finalSegment meetingId)).drop (5 * k)).take 5).map
                (fun t => t.text))))
    ∧ (∀ a : Arrival, a.write = .ok () →
        insightInputs
            (onTranscriptReceived meetingId (handleAll meetingId ⟨[], []⟩ arrivals).buffer a).2.calls
          = (match finalSegment meetingId a with
             | some t =>
               if ((arrivals.filterMap (finalSegment meetingId)).length + 1) % 5 = 0 then
                 [" ".intercalate
                   ((((arrivals.filterMap (finalSegment meetingId)) ++ [t]).drop
                      ((arrivals.filterMap (finalSegment meetingId)).length + 1 - 5)).map
                     (fun t => t.text))]
               else []
             | none => []))
    ∧ insightInputs (handleAll meetingId ⟨[], []⟩ arrivals).calls
        = (specRun meetingId arrivals).extractions := by
  have hb : (handleAll meetingId ⟨[], []⟩ arrivals).buffer
      = arrivals.filterMap (finalSegment meetingId) := by
    simpa using handleAll_buffer meetingId ⟨[], []⟩ arrivals
  have hi := handleAll_inputs meetingId arrivals hw
  rw [hb] at hi
  refine ⟨hb, ?_, ?_, ?_, ?_, ?_⟩
  · rw [hi]; simp
  · intro hlt
    rw [hi, Nat.div_eq_of_lt hlt]; rfl
  · intro k hk
    refine ⟨?_, ?_⟩
    · rw [List.length_take, List.length_drop]; omega
    · rw [hi, List.getElem?_map, List.getElem?_range hk]; rfl
  · intro a ha
    rw [step_inputs meetingId _ a ha, hb]
    cases finalSegment meetingId a with
    | none => rfl
    | some t => simp [recentText]
  · exact (specRun_eq meetingId arrivals hw).2.2.symm

/-- C1 on the example of the specification: the five segments trigger one
extraction, over all five in order. -/
theorem insights_every_fifth_segment_witness :
    (∀ a ∈ exampleArrivals, a.write = .ok ())
    ∧ insightInputs (handleAll "m1" ⟨[], []⟩ exampleArrivals).calls
        = ["Let's ship v2 by Friday I'll own that Sounds good Also update docs I'll do the docs"] := by
  have hw : ∀ a ∈ exampleArrivals, a.write = .ok () := by
    intro a ha
    simp only [exampleArrivals, List.map_cons, List.map_nil, List.mem_cons, List.mem_singleton,
      List.not_mem_nil, or_false] at ha
    rcases ha with h | h | h | h | h <;> rw [h]
  have h := ((insights_every_fifth_segment "m1" exampleArrivals hw).2.2.2.1 0 (by decide)).2
  have hlen := (insights_every_fifth_segment "m1" exampleArrivals hw).2.1
  have e1 : (exampleArrivals.filterMap (finalSegment "m1")).length / 5 = 1 := by decide
  have e2 : " ".intercalate
      ((((exampleArrivals.filterMap (finalSegment "m1")).drop (5 * 0)).take 5).map
        (fun t => t.text))
      = "Let's ship v2 by Friday I'll own that Sounds good Also update docs I'll do the docs" := by
    decide
  rw [e1] at hlen
  rw [e2] at h
  refine ⟨hw, ?_⟩
  generalize insightInputs (handleAll "m1" ⟨[], []⟩ exampleArrivals).calls = xs at h hlen
  match xs, hlen, h with
  | [x], _, h => simpa using h

/-! ### The buffer of a connection -/

theorem onTranscriptReceived_buffer (meetingId : String) (buffer : List TranscriptData)
    (a : Arrival) :
    (onTranscriptReceived meetingId buffer a).1 = buffer ++ (finalSegment meetingId a).toList := by
  simpa [ConnState.handle] using handle_buffer meetingId ⟨buffer, []⟩ a

theorem finalizeMeeting_closures (st : AudioStreamHandler) (meetingId : String)
    (buffer : List TranscriptData) (env : FinalizeEnv) :
    (finalizeMeeting st meetingId buffer env).1.closures = st.closures := by
  simp only [finalizeMeeting]
  split <;> rfl

theorem step_closure (st : AudioStreamHandler) (e : Event) (conn : Nat) (c : Closure)
    (h : st.closures[conn]? = some c) :
    (st.step e).closures[conn]?
      = some { c with
          transcriptBuffer := c.transcriptBuffer ++ appendedTo conn c.meetingId [e] } := by
  have hlt : conn < st.closures.length := by
    rcases Nat.lt_or_ge conn st.closures.length with hlt | hge
    · exact hlt
    · rw [List.getElem?_eq_none hge] at h; cases h
  cases e with
  | connection ws meetingId dateNow =>
    simp [AudioStreamHandler.step, handleConnection, appendedTo, List.getElem?_append_left hlt, h]
  | transcriptReceived other a =>
    unfold AudioStreamHandler.step
    by_cases ho : other = conn
    · subst ho
      simp only [h, appendedTo, List.filterMap_cons, List.filterMap_nil, if_true]
      rw [List.getElem?_set_self hlt, onTranscriptReceived_buffer]
      cases finalSegment c.meetingId a <;> simp
    · cases hx : st.closures[other]? with
      | none => simp [hx, appendedTo, ho, h]
      | some x =>
        simp only [hx, appendedTo, ho, List.filterMap_cons, List.filterMap_nil, if_false]
        rw [List.getElem?_set_ne ho, h]
        simp
  | insights conn2 jsonParse newDate completion createMany =>
    simp [AudioStreamHandler.step, appendedTo, h]
  | close other env =>
    unfold AudioStreamHandler.step
    cases hx : st.closures[other]? with
    | none => simp [hx, appendedTo, h]
    | some x => simp [hx, finalizeMeeting_closures, appendedTo, h]

theorem run_closure (events : List Event) :
    ∀ (st : AudioStreamHandler) (conn : Nat) (c : Closure), st.closures[conn]? = some c →
      (st.run events).closures[conn]?
        = some { c with
            transcriptBuffer := c.transcriptBuffer ++ appendedTo conn c.meetingId events } := by
  induction events with
  | nil => intro st conn c h; simp [AudioStreamHandler.run, appendedTo, h]
  | cons e es ih =>
    intro st conn c h
    have h1 := step_closure st e conn c h
    have h2 := ih (st.step e) conn _ h1
    have hrun : st.run (e :: es) = (st.step e).run es := rfl
    rw [hrun, h2]
    have happ : appendedTo conn c.meetingId (e :: es)
        = appendedTo conn c.meetingId [e] ++ appendedTo conn c.meetingId es := by
      simp only [appendedTo, List.filterMap_cons, List.filterMap_nil]
      split <;> simp
    simp [happ]

/-- C2: for every sequence of server events, the buffer of a connection is
what it was followed by the segments of the final, non-dropped events of that
connection in arrival order; every event leaves the previous contents as an
unchanged leading part; an event of another connection leaves the buffer as it
is; and neither `finalizeMeeting` nor `processRealtimeInsights` changes any
buffer. -/
theorem transcript_buffer_append_only (st : AudioStreamHandler) (events : List Event)
    (conn : Nat) (c : Closure) (h : st.closures[conn]? = some c) :
    (st.run events).closures[conn]?
      = some { c with
          transcriptBuffer := c.transcriptBuffer ++ appendedTo conn c.meetingId events }
    ∧ (∀ e : Event, ∃ c2 : Closure, (st.step e).closures[conn]? = some c2
        ∧ c.transcriptBuffer <+: c2.transcriptBuffer)
    ∧ (∀ (other : Nat) (a : Arrival), other ≠ conn →
        (st.step (.transcriptReceived other a)).closures[conn]? = some c)
    ∧ (∀ (meetingId : String) (buffer : List TranscriptData) (env : FinalizeEnv),
        (finalizeMeeting st meetingId buffer env).1.closures = st.closures)
    ∧ (∀ (k : Nat) (jsonParse : String → Except JsError Json) (newDate : Json → JsDate)
        (completion : Except JsError Completion) (createMany : Except JsError Unit),
        st.step (.insights k jsonParse newDate completion createMany) = st) := by
  refine ⟨run_closure events st conn c h, ?_, ?_, ?_, ?_⟩
  · intro e
    exact ⟨_, step_closure st e conn c h, List.prefix_append _ _⟩
  · intro other a ho
    rw [step_closure st _ conn c h]
    simp [appendedTo, ho]
  · intro meetingId buffer env
    exact finalizeMeeting_closures st meetingId buffer env
  · intro k jsonParse newDate completion createMany
    rfl

/-- C2 on two interleaved meetings: the buffer of the first connection holds
its two final segments, in order. -/
theorem transcript_buffer_append_only_witness :
    twoMeetings.closures[0]? = some ⟨1, "m1", []⟩
    ∧ (twoMeetings.run interleavedEvents).closures[0]?
        = some ⟨1, "m1",
            [] ++ appendedTo 0 "m1" interleavedEvents⟩ :=
  ⟨by decide, (transcript_buffer_append_only twoMeetings interleavedEvents 0 ⟨1, "m1", []⟩
    (by decide)).1⟩

/-! ### Speaker labels -/

/-- C3 as stated fails: a session whose first event is said by provider
speaker 3 labels it `Speaker 4`, where first-seen numbering gives `Speaker 1`. -/
theorem first_seen_labels_counterexample :
    codeLabels "m1" [finalArrival "hi" 3] = ["Speaker 4"]
    ∧ specLabels [finalArrival "hi" 3] = ["Speaker 1"]
    ∧ codeLabels "m1" [finalArrival "hi" 3] ≠ specLabels [finalArrival "hi" 3] := by
  decide

/-- C3, amended: the label of an event is `Speaker` followed by the decimal
numeral of its provider speaker identifier plus one (the identifier being 0
when the event carries none), whatever was seen before in the session; hence
two events with the same identifier get the same label. -/
theorem speaker_label_is_identifier_plus_one (meetingId : String) (arrivals : List Arrival) :
    (∀ a : Arrival, (buildTranscriptData meetingId a).map (fun t => t.speaker)
        = (providerSpeaker a).map (fun i => "Speaker " ++ toString (i + 1)))
    ∧ codeLabels meetingId arrivals
        = (arrivals.filterMap providerSpeaker).map (fun i => "Speaker " ++ toString (i + 1))
    ∧ (∀ a b : Arrival, providerSpeaker a = providerSpeaker b →
        (buildTranscriptData meetingId a).map (fun t => t.speaker)
          = (buildTranscriptData meetingId b).map (fun t => t.speaker))
    ∧ speakerOf [] = 0 ∧ speakerOf [{ speaker := none }] = 0 := by
  have h1 : ∀ a : Arrival, (buildTranscriptData meetingId a).map (fun t => t.speaker)
      = (providerSpeaker a).map (fun i => "Speaker " ++ toString (i + 1)) := by
    intro a
    cases hc : a.transcription.channel with
    | none => simp [buildTranscriptData, providerSpeaker, hc]
    | some channel =>
      cases ha : channel.alternatives.head? with
      | none => simp [buildTranscriptData, providerSpeaker, hc, ha]
      | some alternative => simp [buildTranscriptData, providerSpeaker, hc, ha, speakerLabel]
  refine ⟨h1, ?_, ?_, rfl, rfl⟩
  · unfold codeLabels
    induction arrivals with
    | nil => rfl
    | cons a rest ih =>
      simp only [List.filterMap_cons]
      have ha := h1 a
      cases hb : buildTranscriptData meetingId a with
      | none =>
        rw [hb] at ha
        cases hp : providerSpeaker a with
        | none => simpa using ih
        | some i => rw [hp] at ha; cases ha
      | some t =>
        rw [hb] at ha
        cases hp : providerSpeaker a with
        | none => rw [hp] at ha; cases ha
        | some i =>
          rw [hp] at ha
          simp only [Option.map_some', Option.some.injEq] at ha
          simp [ha, ih]
  · intro a b hab
    rw [h1 a, h1 b, hab]

/-! ### Opening a session twice -/

/-- C4 as stated fails: a second `handleConnection` for a meeting that is
still registered completes normally and the entry of the meeting is the new
one. -/
theorem second_open_counterexample :
    mapGet (handleConnection ⟨[], [], []⟩ 1 "m1" 100).1.activeStreams "m1"
      = some ⟨1, 0, 100, 0⟩
    ∧ (handleConnection (handleConnection ⟨[], [], []⟩ 1 "m1" 100).1 2 "m1" 200).2.result
      = .ok ()
    ∧ mapGet (handleConnection (handleConnection ⟨[], [], []⟩ 1 "m1" 100).1 2 "m1"
        200).1.activeStreams "m1"
      = some ⟨2, 1, 200, 1⟩ :=
  ⟨by decide, rfl, by decide⟩

theorem mapGet_mapSet_self (m : List (String × StreamInfo)) (key : String) (value : StreamInfo) :
    mapGet (mapSet m key value) key = some value := by
  induction m with
  | nil => simp [mapSet, mapGet]
  | cons kv rest ih =>
    by_cases hk : kv.1 = key
    · simp [mapSet, mapGet, hk]
    · have ih2 := ih
      unfold mapGet at ih2
      simp [mapSet, mapGet, hk, List.find?_cons, ih2]

theorem mapGet_mapSet_ne (m : List (String × StreamInfo)) (key other : String)
    (value : StreamInfo) (h : other ≠ key) :
    mapGet (mapSet m key value) other = mapGet m other := by
  have hne : ¬ key = other := fun e => h e.symm
  induction m with
  | nil => simp [mapSet, mapGet, hne]
  | cons kv rest ih =>
    by_cases hk : kv.1 = key
    · have hko : ¬ kv.1 = other := by rw [hk]; exact hne
      simp [mapSet, mapGet, hk, hne, List.find?_cons]
    · have ih2 := ih
      unfold mapGet at ih2
      by_cases hko : kv.1 = other
      · have hk2 : ¬ other = key := h
        simp [mapSet, mapGet, hko, hk2, List.find?_cons]
      · simp [mapSet, mapGet, hk, hko, List.find?_cons, ih2]

/-- C4, amended: `handleConnection` never fails; it stores under `meetingId`
an entry made of the new socket, a new Deepgram connection, the current time
and a new empty buffer, whether or not the meeting had an entry before; the
entries of the other meetings and the closures of the earlier calls, with
their buffers, stay as they are. -/
theorem handleConnection_replaces_entry (st : AudioStreamHandler) (ws : Nat)
    (meetingId : String) (dateNow : Nat) :
    (handleConnection st ws meetingId dateNow).2.result = .ok ()
    ∧ mapGet (handleConnection st ws meetingId dateNow).1.activeStreams meetingId
        = some { ws := ws, dgConnection := st.closures.length, startTime := dateNow,
                 transcriptBuffer := st.closures.length }
    ∧ (∀ other : String, other ≠ meetingId →
        mapGet (handleConnection st ws meetingId dateNow).1.activeStreams other
          = mapGet st.activeStreams other)
    ∧ (handleConnection st ws meetingId dateNow).1.closures
        = st.closures ++ [{ ws := ws, meetingId := meetingId, transcriptBuffer := [] }] := by
  refine ⟨rfl, ?_, ?_, rfl⟩
  · exact mapGet_mapSet_self _ _ _
  · intro other ho
    exact mapGet_mapSet_ne _ _ _ _ ho

/-! ### Finalization when the summary call fails -/

/-- C5 fails on the code: with the meeting `m1` registered and the summary
call rejected, `finalizeMeeting` rejects after that one call and `m1` is still
in `activeStreams`. -/
theorem finalize_keeps_session_on_failed_summary :
    mapGet twoMeetings.activeStreams "m1" = some ⟨1, 0, 100, 0⟩
    ∧ (finalizeMeeting twoMeetings "m1" [] failingEnv).2.result = .error .rejected
    ∧ (finalizeMeeting twoMeetings "m1" [] failingEnv).2.calls.length = 1
    ∧ mapGet (finalizeMeeting twoMeetings "m1" [] failingEnv).1.activeStreams "m1"
        = some ⟨1, 0, 100, 0⟩ :=
  ⟨by decide, rfl, rfl, by decide⟩

/-! ### Insight extraction never raises -/

theorem tryCatch_result_ok (body : Run Unit) (handler : JsError → Run Unit)
    (h : ∀ e, (handler e).result = .ok ()) : (Run.tryCatch body handler).result = .ok () := by
  simp only [Run.tryCatch]
  split
  · rfl
  · exact h _

/-- C6: whatever the language-model call, `JSON.parse`, the `Date` constructor
and the action-item write do, `processRealtimeInsights` completes normally;
and a run of it changes nothing in the state of the server, so every sequence
of events leads to the same state with it as without it. -/
theorem insights_never_raise (jsonParse : String → Except JsError Json)
    (newDate : Json → JsDate) (meetingId : String) (buffer : List TranscriptData)
    (completion : Except JsError Completion) (createMany : Except JsError Unit) :
    (processRealtimeInsights jsonParse newDate meetingId buffer completion createMany).result
      = .ok ()
    ∧ (∀ (st : AudioStreamHandler) (conn : Nat) (before after : List Event),
        st.run (before ++ .insights conn jsonParse newDate completion createMany :: after)
          = st.run (before ++ after)) := by
  constructor
  · exact tryCatch_result_ok _ _ (fun _ => rfl)
  · intro st conn before after
    simp [AudioStreamHandler.run, List.foldl_append, AudioStreamHandler.step]

/-! ### Insight extraction on a failed or malformed response -/

/-- C7 as stated fails: a response that is valid JSON without the three lists
is broadcast as INSIGHTS, and one with only `actionItems` is also persisted. -/
theorem malformed_insights_counterexample :
    (processRealtimeInsights exampleParse (fun _ => .invalid) "m1" []
        (.ok ⟨[⟨some "\x7b\x7d"⟩]⟩) (.ok ())).calls.any Call.isInsights = true
    ∧ (processRealtimeInsights exampleParse (fun _ => .invalid) "m1" []
        (.ok ⟨[⟨some "\x7b\"actionItems\":[\x7b\"task\":\"Ship v2\"\x7d]\x7d"⟩]⟩)
        (.ok ())).calls.any Call.isActionItemWrite = true := by
  decide

/-- C7, amended: when the language-model call fails, or the completion has no
first choice, or `JSON.parse` throws on the response text, the calls of
`processRealtimeInsights` are the language-model call and the error log: no
INSIGHTS broadcast and no action-item write. -/
theorem no_insights_on_failed_response (jsonParse : String → Except JsError Json)
    (newDate : Json → JsDate) (meetingId : String) (buffer : List TranscriptData)
    (completion : Except JsError Completion) (createMany : Except JsError Unit) (e : JsError)
    (h : parsedInsights jsonParse completion = .error e) :
    (processRealtimeInsights jsonParse newDate meetingId buffer completion createMany).calls
      = [.chatCompletionsCreate (insightsPrompt (recentText buffer)) true, .consoleError]
    ∧ (processRealtimeInsights jsonParse newDate meetingId buffer completion
        createMany).calls.any Call.isInsights = false
    ∧ (processRealtimeInsights jsonParse newDate meetingId buffer completion
        createMany).calls.any Call.isActionItemWrite = false := by
  have hc : (processRealtimeInsights jsonParse newDate meetingId buffer completion
      createMany).calls
      = [.chatCompletionsCreate (insightsPrompt (recentText buffer)) true, .consoleError] := by
    cases completion with
    | error e1 =>
      simp [processRealtimeInsights, Run.tryCatch, Run.await, Run.call, Run.bind, bind]
    | ok c =>
      cases hm : messageContent c with
      | error e2 =>
        simp [processRealtimeInsights, Run.tryCatch, Run.await, Run.call, Run.bind, Run.lift,
          bind, hm]
      | ok content =>
        cases hp : jsonParse (content.getD "null") with
        | error e3 =>
          simp [processRealtimeInsights, Run.tryCatch, Run.await, Run.call, Run.bind, Run.lift,
            bind, hm, hp]
        | ok insights =>
          simp [parsedInsights, bind, Except.bind, hm, hp] at h
  rw [hc]
  exact ⟨rfl, rfl, rfl⟩

/-- C7, amended, on a response that is not JSON. -/
theorem no_insights_on_failed_response_witness :
    parsedInsights exampleParse (.ok ⟨[⟨some "not json"⟩]⟩) = .error .syntaxError
    ∧ (processRealtimeInsights exampleParse (fun _ => .invalid) "m1" []
        (.ok ⟨[⟨some "not json"⟩]⟩) (.ok ())).calls.any Call.isInsights = false :=
  ⟨rfl, (no_insights_on_failed_response exampleParse (fun _ => .invalid) "m1" []
    (.ok ⟨[⟨some "not json"⟩]⟩) (.ok ()) .syntaxError rfl).2.1⟩

/-! ### Broadcast -/

/-- C8 fails on the code: a message published for `m1` is sent to the open
client that connected for `m2`; the meeting identifier plays no part in the
choice of the receivers. -/
theorem broadcast_reaches_other_meeting :
    (broadcast threeClients "m1" (.INSIGHTS .null)).map (fun d => d.client)
      = [⟨1, "m1", 1⟩, ⟨2, "m2", 1⟩]
    ∧ (∀ (clients : List Client) (m1 m2 : String) (message : Message),
        broadcast clients m1 message = broadcast clients m2 message) :=
  ⟨by decide, fun _ _ _ _ => rfl⟩

/-! ### Interim events -/

/-- C9: an interim event with a first alternative leaves the buffer as it is,
and the handler makes exactly one call, the broadcast of a TRANSCRIPT message
that carries the interim text: no storage write and no extraction; the
handler completes normally, and the counter of the specification's session
does not move. -/
theorem interim_event_only_broadcast (meetingId : String) (buffer : List TranscriptData)
    (a : Arrival) (channel : Channel) (alternative : Alternative)
    (hc : a.transcription.channel = some channel)
    (ha : channel.alternatives.head? = some alternative)
    (hf : a.transcription.is_final = false) :
    (onTranscriptReceived meetingId buffer a).1 = buffer
    ∧ (onTranscriptReceived meetingId buffer a).2.calls
        = [.broadcast meetingId (.TRANSCRIPT
            { id := a.uuid, meetingId := meetingId, text := alternative.transcript,
              speaker := speakerLabel (speakerOf (alternative.words.getD [])),
              timestamp := a.now, isFinal := false, confidence := alternative.confidence })]
    ∧ (onTranscriptReceived meetingId buffer a).2.result = .ok ()
    ∧ (onTranscriptReceived meetingId buffer a).1.length % 5 = buffer.length % 5
    ∧ (∀ s : SpecSession, s.feed meetingId a = s) := by
  have hb : buildTranscriptData meetingId a
      = some { id := a.uuid, meetingId := meetingId, text := alternative.transcript,
               speaker := speakerLabel (speakerOf (alternative.words.getD [])),
               timestamp := a.now, isFinal := false, confidence := alternative.confidence } := by
    simp [buildTranscriptData, hc, ha, hf]
  refine ⟨?_, ?_, ?_, ?_, ?_⟩
  · simp [onTranscriptReceived, hb]
  · simp [onTranscriptReceived, hb, Run.call]
  · simp [onTranscriptReceived, hb, Run.call]
  · simp [onTranscriptReceived, hb]
  · intro s
    simp [SpecSession.feed, finalSegment, hb]

/-- C9 on an interim event with the text `wor`. -/
theorem interim_event_only_broadcast_witness :
    (interimArrival "wor").transcription.channel = some ⟨[⟨"wor", 5, none⟩]⟩
    ∧ (onTranscriptReceived "m1" [] (interimArrival "wor")).2.calls
        = [.broadcast "m1" (.TRANSCRIPT
            { id := "u", meetingId := "m1", text := "wor",
              speaker := speakerLabel (speakerOf ((none : Option (List Word)).getD [])),
              timestamp := 0, isFinal := false, confidence := 5 })] :=
  ⟨rfl, (interim_event_only_broadcast "m1" [] (interimArrival "wor") ⟨[⟨"wor", 5, none⟩]⟩
    ⟨"wor", 5, none⟩ rfl rfl rfl).2.1⟩

/-! ### Events without speech -/

/-- C10 as stated fails: a final event whose first alternative has an empty
transcript is appended to the buffer, written to storage and broadcast. -/
theorem empty_transcript_counterexample :
    (onTranscriptReceived "m1" [] (finalArrival "" 0)).1
      = [{ id := "u", meetingId := "m1", text := "", speaker := "Speaker 1", timestamp := 0,
           isFinal := true, confidence := 9 }]
    ∧ (onTranscriptReceived "m1" [] (finalArrival "" 0)).2.calls
      = [.transcriptCreate { meetingId := "m1", content := "", speaker := "Speaker 1",
                             timestamp := 0, confidence := 9 },
         .broadcast "m1" (.TRANSCRIPT
           { id := "u", meetingId := "m1", text := "", speaker := "Speaker 1", timestamp := 0,
             isFinal := true, confidence := 9 })] :=
  ⟨by decide, rfl⟩

/-- C10, amended: an event with no channel, or with a channel that has no
first alternative, is dropped: the handler completes normally, the buffer is
as it was and no call is made (nothing stored, nothing broadcast, no
extraction). -/
theorem event_without_alternative_dropped (meetingId : String) (buffer : List TranscriptData)
    (a : Arrival)
    (h : a.transcription.channel = none
      ∨ ∃ channel : Channel, a.transcription.channel = some channel
          ∧ channel.alternatives = []) :
    (onTranscriptReceived meetingId buffer a).1 = buffer
    ∧ (onTranscriptReceived meetingId buffer a).2.calls = []
    ∧ (onTranscriptReceived meetingId buffer a).2.result = .ok () := by
  have hb : buildTranscriptData meetingId a = none := by
    rcases h with h | ⟨channel, h1, h2⟩
    · simp [buildTranscriptData, h]
    · simp [buildTranscriptData, h1, h2]
  simp [onTranscriptReceived, hb, Run.ret]

/-- C10, amended, on an event with a channel without alternatives. -/
theorem event_without_alternative_dropped_witness :
    ((⟨⟨some ⟨[]⟩, true⟩, "u", 0, .ok ()⟩ : Arrival).transcription.channel = none
      ∨ ∃ channel : Channel,
          (⟨⟨some ⟨[]⟩, true⟩, "u", 0, .ok ()⟩ : Arrival).transcription.channel = some channel
          ∧ channel.alternatives = [])
    ∧ (onTranscriptReceived "m1" [] ⟨⟨some ⟨[]⟩, true⟩, "u", 0, .ok ()⟩).2.calls = [] :=
  ⟨Or.inr ⟨⟨[]⟩, rfl, rfl⟩,
   (event_without_alternative_dropped "m1" [] ⟨⟨some ⟨[]⟩, true⟩, "u", 0, .ok ()⟩
    (Or.inr ⟨⟨[]⟩, rfl, rfl⟩)).2.1⟩

/-! ### The order of the effects of finalization -/

theorem mapGet_mapDelete_self (m : List (String × StreamInfo)) (key : String) :
    mapGet (mapDelete m key) key = none := by
  induction m with
  | nil => rfl
  | cons kv rest ih =>
    by_cases hk : kv.1 = key
    · simp [mapGet, mapDelete, List.filter_cons, hk]
    · simp [mapGet, mapDelete, List.filter_cons, hk, List.find?_cons]

theorem finalizeMeeting_snd (st : AudioStreamHandler) (meetingId : String)
    (buffer : List TranscriptData) (env : FinalizeEnv) :
    (finalizeMeeting st meetingId buffer env).2 = finalizeBody st meetingId buffer env := by
  simp only [finalizeMeeting]
  split <;> rfl

/-- The run of `finalizeBody` when the summary call and the meeting update
resolve: it ends at the `require` of line 219. -/
theorem finalizeBody_of_success (st : AudioStreamHandler) (meetingId : String)
    (buffer : List TranscriptData) (env : FinalizeEnv) (completion : Completion)
    (content : String) (info : StreamInfo)
    (hc : env.completion = .ok completion)
    (hm : messageContent completion = .ok (some content))
    (hi : mapGet st.activeStreams meetingId = some info)
    (hu : env.update = .ok ()) :
    finalizeBody st meetingId buffer env =
      ⟨[.summaryCompletionsCreate
          (summaryPrompt (" ".intercalate (buffer.map (fun t => t.text)))),
        .meetingUpdate meetingId
          { status := "COMPLETED", endedAt := env.endedAt,
            summary := extractSection content "Executive summary",
            keyPoints := extractList content "Key discussion points",
            duration := ((env.dateNow : Int) - (info.startTime : Int)) / 1000 }],
       .error .referenceError⟩ := by
  simp [finalizeBody, generateSummary, queuePostProcessing, requireBull, Run.throw, Run.await,
    Run.lift, Run.bind, Run.ret, bind, pure, hc, hm, hi, hu]

/-- The function `queuePostProcessing` ends at its first statement. -/
theorem queuePostProcessing_throws (meetingId : String) (summary : Summary)
    (addFollowup addCrmSync : Except JsError Unit) :
    queuePostProcessing meetingId summary addFollowup addCrmSync
      = ⟨[], .error .referenceError⟩ := by
  simp [queuePostProcessing, requireBull, Run.throw, Run.bind, bind]

/-- No run of `finalizeBody` completes, and none adds a job to the queue. -/
theorem finalizeBody_never_completes (st : AudioStreamHandler) (meetingId : String)
    (buffer : List TranscriptData) (env : FinalizeEnv) :
    (finalizeBody st meetingId buffer env).result ≠ .ok ()
    ∧ queuedJobs (finalizeBody st meetingId buffer env).calls = [] := by
  unfold finalizeBody generateSummary
  simp only [queuePostProcessing_throws]
  cases hc : env.completion with
  | error e => simp [Run.await, Run.bind, bind, queuedJobs]
  | ok completion =>
    cases hm : messageContent completion with
    | error e => simp [Run.await, Run.lift, Run.bind, bind, queuedJobs, hm]
    | ok content =>
      cases content with
      | none => simp [Run.await, Run.lift, Run.throw, Run.bind, bind, queuedJobs, hm]
      | some text =>
        cases hi : mapGet st.activeStreams meetingId with
        | none =>
          simp [Run.await, Run.lift, Run.bind, Run.ret, bind, pure, queuedJobs, hm, hi]
        | some info =>
          cases hu : env.update <;>
            simp [Run.await, Run.lift, Run.bind, Run.ret, bind, pure, queuedJobs, hm, hi, hu]

/-- C11 fails on the code: with the meeting `m1` registered and the summary
call and the meeting update resolving, `finalizeMeeting` makes the
language-model call and the update and then throws at the `require` of line
219: no job is added to the queue and `m1` is still in `activeStreams`. No run
of `finalizeMeeting` adds a job or changes the state. -/
theorem finalize_stops_before_the_queue :
    mapGet twoMeetings.activeStreams "m1" = some ⟨1, 0, 100, 0⟩
    ∧ (finalizeMeeting twoMeetings "m1" [] succeedingEnv).2.result = .error .referenceError
    ∧ (finalizeMeeting twoMeetings "m1" [] succeedingEnv).2.calls.length = 2
    ∧ meetingUpdates (finalizeMeeting twoMeetings "m1" [] succeedingEnv).2.calls
        = [("m1", { status := "COMPLETED", endedAt := 900, summary := "Done.",
                    keyPoints := [], duration := 0 })]
    ∧ queuedJobs (finalizeMeeting twoMeetings "m1" [] succeedingEnv).2.calls = []
    ∧ mapGet (finalizeMeeting twoMeetings "m1" [] succeedingEnv).1.activeStreams "m1"
        = some ⟨1, 0, 100, 0⟩
    ∧ (∀ (st : AudioStreamHandler) (meetingId : String) (buffer : List TranscriptData)
        (env : FinalizeEnv),
        queuedJobs (finalizeMeeting st meetingId buffer env).2.calls = []
        ∧ (finalizeMeeting st meetingId buffer env).1 = st) := by
  refine ⟨by decide, rfl, rfl, by decide, by decide, by decide, ?_⟩
  intro st meetingId buffer env
  have h := finalizeBody_never_completes st meetingId buffer env
  refine ⟨by rw [finalizeMeeting_snd]; exact h.2, ?_⟩
  simp only [finalizeMeeting]
  split
  · rename_i a hres
    exact absurd hres h.1
  · rfl

/-! ### The record persisted by finalization -/

/-- C12 fails on the code: the decision list is parsed from the response but
is not part of the meeting update. Two responses that differ only in their
decisions give the same update; its fields are the status, the end time, the
summary text, the key points and the whole seconds since the start. -/
theorem decisions_not_persisted :
    extractList
        "Executive summary: Done.\n\nKey discussion points:\n- a\n\nDecisions made:\n- ship v2"
        "Decisions made" = ["- ship v2"]
    ∧ extractList
        "Executive summary: Done.\n\nKey discussion points:\n- a\n\nDecisions made:\n- hire"
        "Decisions made" = ["- hire"]
    ∧ meetingUpdates (finalizeMeeting twoMeetings "m1" [] (envWithResponse
        "Executive summary: Done.\n\nKey discussion points:\n- a\n\nDecisions made:\n- ship v2")).2.calls
      = [("m1", { status := "COMPLETED", endedAt := 4600, summary := "Done.",
                  keyPoints := ["- a"], duration := 4 })]
    ∧ meetingUpdates (finalizeMeeting twoMeetings "m1" [] (envWithResponse
        "Executive summary: Done.\n\nKey discussion points:\n- a\n\nDecisions made:\n- hire")).2.calls
      = [("m1", { status := "COMPLETED", endedAt := 4600, summary := "Done.",
                  keyPoints := ["- a"], duration := 4 })] := by
  decide

/-! ### The transcript in the summary prompt -/

theorem bind_calls_cons {α β : Type} (m : Run α) (f : α → Run β) (c : Call) (cs : List Call)
    (h : m.calls = c :: cs) : ∃ cs2, (m >>= f).calls = c :: cs2 := by
  show ∃ cs2, (Run.bind m f).calls = c :: cs2
  unfold Run.bind
  cases m.result with
  | ok a => exact ⟨cs ++ (f a).calls, by simp [h]⟩
  | error e => exact ⟨cs, by simp [h]⟩

theorem generateSummary_calls_cons (transcript : String)
    (completion : Except JsError Completion) :
    ∃ cs, (generateSummary transcript completion).calls
      = .summaryCompletionsCreate (summaryPrompt transcript) :: cs := by
  unfold generateSummary
  exact bind_calls_cons _ _ _ [] rfl

theorem finalizeBody_calls_cons (st : AudioStreamHandler) (meetingId : String)
    (buffer : List TranscriptData) (env : FinalizeEnv) :
    ∃ cs, (finalizeBody st meetingId buffer env).calls
      = .summaryCompletionsCreate
          (summaryPrompt (" ".intercalate (buffer.map (fun t => t.text)))) :: cs := by
  obtain ⟨cs, h⟩ := generateSummary_calls_cons
    (" ".intercalate (buffer.map (fun t => t.text))) env.completion
  unfold finalizeBody
  exact bind_calls_cons _ _ _ cs h

theorem summaryPrompt_congr (t1 t2 : String) (h : substring15000 t1 = substring15000 t2) :
    summaryPrompt t1 = summaryPrompt t2 := by
  unfold summaryPrompt
  rw [h]

theorem finalizeMeeting_congr (st : AudioStreamHandler) (meetingId : String)
    (buffer1 buffer2 : List TranscriptData) (env : FinalizeEnv)
    (h : substring15000 (" ".intercalate (buffer1.map (fun t => t.text)))
        = substring15000 (" ".intercalate (buffer2.map (fun t => t.text)))) :
    finalizeMeeting st meetingId buffer1 env = finalizeMeeting st meetingId buffer2 env := by
  have hb : finalizeBody st meetingId buffer1 env = finalizeBody st meetingId buffer2 env := by
    simp only [finalizeBody, generateSummary]
    rw [summaryPrompt_congr _ _ h]
  unfold finalizeMeeting
  rw [hb]

theorem utf16Chars_replicate (n : Nat) :
    utf16Chars (List.replicate n (Char.ofNat 97)) = List.replicate n 97 := by
  induction n with
  | zero => rfl
  | succ k ih =>
    rw [List.replicate_succ, List.replicate_succ, utf16Chars, ih]
    rfl

/-- C13 as stated fails: a transcript of 15001 characters, each one code unit,
is finalized with exactly the calls, the result and the state of a transcript
of 15000 characters, so nothing records that a character was dropped. -/
theorem truncation_not_recorded_counterexample :
    (" ".intercalate ([longSegment 15001].map (fun t => t.text))).length = 15001
    ∧ (" ".intercalate ([longSegment 15000].map (fun t => t.text))).length = 15000
    ∧ (utf16 (" ".intercalate ([longSegment 15001].map (fun t => t.text)))).length = 15001
    ∧ (utf16 (" ".intercalate ([longSegment 15000].map (fun t => t.text)))).length = 15000
    ∧ finalizeMeeting twoMeetings "m1" [longSegment 15001] succeedingEnv
        = finalizeMeeting twoMeetings "m1" [longSegment 15000] succeedingEnv := by
  refine ⟨?_, ?_, ?_, ?_, ?_⟩
  · show (List.replicate 15001 (Char.ofNat 97)).length = 15001
    exact List.length_replicate _ _
  · show (List.replicate 15000 (Char.ofNat 97)).length = 15000
    exact List.length_replicate _ _
  · show (utf16Chars (List.replicate 15001 (Char.ofNat 97))).length = 15001
    rw [utf16Chars_replicate]
    exact List.length_replicate _ _
  · show (utf16Chars (List.replicate 15000 (Char.ofNat 97))).length = 15000
    rw [utf16Chars_replicate]
    exact List.length_replicate _ _
  · apply finalizeMeeting_congr
    show (utf16Chars (List.replicate 15001 (Char.ofNat 97))).take 15000
      = (utf16Chars (List.replicate 15000 (Char.ofNat 97))).take 15000
    rw [utf16Chars_replicate, utf16Chars_replicate, List.take_replicate, List.take_replicate]
    rfl

/-- C13, amended: the transcript text placed in the summary prompt is the
leading part of length `min L 15000` of the segment texts joined in buffer
order by single spaces, where lengths are counted in UTF-16 code units, as
`substring` and `length` count them (a character beyond U+FFFF counts for
two); and it is the only part of the transcript that finalization uses: two
buffers whose joined texts agree on their first 15000 code units are finalized
with the same calls, result and state. -/
theorem summary_prompt_takes_first_15000 (st : AudioStreamHandler) (meetingId : String)
    (buffer : List TranscriptData) (env : FinalizeEnv) :
    substring15000 (" ".intercalate (buffer.map (fun t => t.text)))
      = (utf16 (" ".intercalate (buffer.map (fun t => t.text)))).take 15000
    ∧ (substring15000 (" ".intercalate (buffer.map (fun t => t.text)))).length
      = min (utf16 (" ".intercalate (buffer.map (fun t => t.text)))).length 15000
    ∧ substring15000 (" ".intercalate (buffer.map (fun t => t.text)))
      <+: utf16 (" ".intercalate (buffer.map (fun t => t.text)))
    ∧ (finalizeMeeting st meetingId buffer env).2.calls.head?
      = some (.summaryCompletionsCreate
          (summaryPrompt (" ".intercalate (buffer.map (fun t => t.text)))))
    ∧ summaryPrompt (" ".intercalate (buffer.map (fun t => t.text)))
      = utf16 ("\n    Generate a comprehensive meeting summary from this transcript:\n" ++
          "    \n" ++
          "    ") ++ substring15000 (" ".intercalate (buffer.map (fun t => t.text))) ++
        utf16 (" // Limit tokens\n" ++
          "    \n" ++
          "    Return:\n" ++
          "    1. Executive summary (2-3 sentences)\n" ++
          "    2. Key discussion points (bullet points)\n" ++
          "    3. Decisions made\n" ++
          "    4. Action items with owners\n" ++
          "    5. Follow-up topics\n" ++
          "    ")
    ∧ (∀ buffer2 : List TranscriptData,
        (utf16 (" ".intercalate (buffer2.map (fun t => t.text)))).take 15000
          = (utf16 (" ".intercalate (buffer.map (fun t => t.text)))).take 15000 →
        finalizeMeeting st meetingId buffer2 env = finalizeMeeting st meetingId buffer env)
    ∧ utf16 (String.mk [Char.ofNat 97, Char.ofNat 128512]) = [97, 55357, 56832] := by
  refine ⟨rfl, ?_, ?_, ?_, rfl, ?_, by decide⟩
  · show (List.take 15000 _).length = _
    rw [List.length_take]
    exact Nat.min_comm _ _
  · exact List.take_prefix _ _
  · rw [finalizeMeeting_snd]
    obtain ⟨cs, h⟩ := finalizeBody_calls_cons st meetingId buffer env
    rw [h]
    rfl
  · intro buffer2 h
    apply finalizeMeeting_congr
    unfold substring15000
    rw [h]

/-! ### Absent sections -/

theorem matchLiteral_some (heading : List Char) :
    ∀ (text rest : List Char), matchLiteral heading text = some rest →
      (text.take heading.length).map foldCase = heading.map foldCase
      ∧ rest = text.drop heading.length := by
  induction heading with
  | nil => intro text rest h; simp [matchLiteral] at h; simp [h]
  | cons p ps ih =>
    intro text rest h
    cases text with
    | nil => simp [matchLiteral] at h
    | cons c cs =>
      by_cases hpc : foldCase p = foldCase c
      · simp only [matchLiteral, hpc, beq_self_eq_true, if_true] at h
        obtain ⟨h1, h2⟩ := ih cs rest h
        simp [h1, h2, hpc]
      · simp [matchLiteral, hpc] at h

theorem matchLiteral_none_of_not_atHead (heading text : List Char)
    (h : headingAtHead heading text = false) : matchLiteral heading text = none := by
  cases hm : matchLiteral heading text with
  | none => rfl
  | some rest =>
    have h1 := (matchLiteral_some heading text rest hm).1
    simp [headingAtHead, h1] at h

theorem firstMatch_none {α : Type} (pattern : List Char → Option α) :
    ∀ text : List Char, (∀ s ∈ text.tails, pattern s = none) → firstMatch pattern text = none := by
  intro text
  induction text with
  | nil => intro h; simpa [firstMatch] using h [] (by simp)
  | cons c cs ih =>
    intro h
    have h1 : pattern (c :: cs) = none := h _ (by simp)
    have h2 : firstMatch pattern cs = none := ih (fun s hs => h s (by simp [hs]))
    simp [firstMatch, h1, h2]

theorem firstMatch_none_of_not_contains {α : Type} (heading text : List Char)
    (k : List Char → Option α) (h : containsHeading heading text = false) :
    firstMatch (fun t => (matchLiteral heading t).bind k) text = none := by
  apply firstMatch_none
  intro s hs
  have hs2 : headingAtHead heading s = false := by
    cases hh : headingAtHead heading s with
    | false => rfl
    | true =>
      have : containsHeading heading text = true := by
        unfold containsHeading
        rw [List.any_eq_true]
        exact ⟨s, hs, hh⟩
      rw [h] at this
      cases this
  simp [matchLiteral_none_of_not_atHead heading s hs2]

theorem extract_of_not_contains (text sectionName : String)
    (h : containsHeading sectionName.toList text.toList = false) :
    extractSection text sectionName = "" ∧ extractList text sectionName = [] := by
  unfold extractSection extractList
  rw [firstMatch_none_of_not_contains _ _ matchColonSpacesLine h,
    firstMatch_none_of_not_contains _ _ matchColonSpacesBlock h]
  exact ⟨rfl, rfl⟩

/-- C14: when a response text contains none of the three headings, in any
letter case, `extractSection` gives the empty string and `extractList` the
empty list, and `generateSummary` completes with the summary whose three
fields are empty. The same holds of every section name made of letters,
digits and spaces that the text does not contain. -/
theorem absent_sections_are_empty (text transcript : String)
    (h1 : containsHeading "Executive summary".toList text.toList = false)
    (h2 : containsHeading "Key discussion points".toList text.toList = false)
    (h3 : containsHeading "Decisions made".toList text.toList = false) :
    extractSection text "Executive summary" = ""
    ∧ extractList text "Key discussion points" = []
    ∧ extractList text "Decisions made" = []
    ∧ (generateSummary transcript (.ok ⟨[⟨some text⟩]⟩)).result
        = .ok { summary := "", keyPoints := [], decisions := [] }
    ∧ (∀ sectionName : String, isPlainName sectionName.toList = true →
        containsHeading sectionName.toList text.toList = false →
        extractSection text sectionName = "" ∧ extractList text sectionName = []) := by
  have e1 := (extract_of_not_contains text "Executive summary" h1).1
  have e2 := (extract_of_not_contains text "Key discussion points" h2).2
  have e3 := (extract_of_not_contains text "Decisions made" h3).2
  refine ⟨e1, e2, e3, ?_, ?_⟩
  · simp [generateSummary, Run.await, Run.lift, Run.bind, Run.ret, bind, pure, messageContent,
      e1, e2, e3]
  · intro sectionName _ h
    exact extract_of_not_contains text sectionName h

/-- C14 on a response without any heading. -/
theorem absent_sections_are_empty_witness :
    containsHeading "Executive summary".toList "I cannot summarise this.".toList = false
    ∧ (generateSummary "hello" (.ok ⟨[⟨some "I cannot summarise this."⟩]⟩)).result
        = .ok { summary := "", keyPoints := [], decisions := [] } :=
  ⟨by decide, (absent_sections_are_empty "I cannot summarise this." "hello"
    (by decide) (by decide) (by decide)).2.2.2.1⟩

/-! ### The section that `extractSection` returns -/

theorem firstMatch_of_some {α : Type} (pattern : List Char → Option α) (text : List Char)
    (r : α) (h : pattern text = some r) : firstMatch pattern text = some r := by
  cases text with
  | nil => simpa [firstMatch] using h
  | cons c cs => simp [firstMatch, h]

theorem firstMatch_skip {α : Type} (pattern : List Char → Option α) (rest : List Char) :
    ∀ before : List Char,
      (∀ i, i < before.length → pattern ((before ++ rest).drop i) = none) →
      firstMatch pattern (before ++ rest) = firstMatch pattern rest := by
  intro before
  induction before with
  | nil => intro _; rfl
  | cons p ps ih =>
    intro h
    have h0 : pattern (p :: (ps ++ rest)) = none := h 0 (by simp)
    have hs : ∀ i, i < ps.length → pattern ((ps ++ rest).drop i) = none := by
      intro i hi
      have := h (i + 1) (by simp [hi])
      simpa using this
    show firstMatch pattern (p :: (ps ++ rest)) = _
    simp only [firstMatch, h0]
    exact ih hs

theorem matchLiteral_of_fold (heading : List Char) :
    ∀ (mid tail : List Char), mid.map foldCase = heading.map foldCase →
      matchLiteral heading (mid ++ tail) = some tail := by
  induction heading with
  | nil =>
    intro mid tail h
    have : mid = [] := by simpa using h
    simp [this, matchLiteral]
  | cons p ps ih =>
    intro mid tail h
    cases mid with
    | nil => simp at h
    | cons c cs =>
      simp only [List.map_cons, List.cons.injEq] at h
      simp [matchLiteral, h.1, ih cs tail h.2]

/-- The leftmost match of a pattern that begins with the heading, in a text
where the heading first occurs after `before`. -/
theorem firstMatch_at_first_heading {α : Type} (heading before mid tail : List Char)
    (k : List Char → Option α) (r : α)
    (hmid : mid.map foldCase = heading.map foldCase)
    (hbefore : ∀ i, i < before.length →
      headingAtHead heading ((before ++ (mid ++ tail)).drop i) = false)
    (hk : k tail = some r) :
    firstMatch (fun t => (matchLiteral heading t).bind k) (before ++ (mid ++ tail)) = some r := by
  rw [firstMatch_skip]
  · apply firstMatch_of_some
    simp [matchLiteral_of_fold heading mid tail hmid, hk]
  · intro i hi
    simp [matchLiteral_none_of_not_atHead heading _ (hbefore i hi)]

theorem matchLine_line (line rest : List Char) (hne : line ≠ [])
    (hline : ∀ c ∈ line, c ≠ newline) (hrest : rest = [] ∨ rest.head? = some newline) :
    matchLine (line ++ rest) = some line := by
  have ht : (line ++ rest).takeWhile (fun c => c != newline) = line := by
    clear hne
    induction line with
    | nil =>
      rcases hrest with h | h
      · simp [h]
      · cases rest with
        | nil => rfl
        | cons r rs =>
          simp only [List.head?_cons, Option.some.injEq] at h
          simp [List.takeWhile_cons, h]
    | cons c cs ih =>
      have hc : c ≠ newline := hline c (by simp)
      have := ih (fun d hd => hline d (by simp [hd]))
      simp [List.takeWhile_cons, hc, this]
  unfold matchLine
  rw [ht]
  cases line with
  | nil => exact absurd rfl hne
  | cons c cs => rfl

theorem matchSpacesLine_line (line rest : List Char) (hne : line ≠ [])
    (hline : ∀ c ∈ line, c ≠ newline) (hrest : rest = [] ∨ rest.head? = some newline)
    (hhead : ∀ c, line.head? = some c → isWhiteSpace c = false) :
    ∀ ws : List Char, ws.all isWhiteSpace = true →
      matchSpacesLine (ws ++ (line ++ rest)) = some line := by
  intro ws
  induction ws with
  | nil =>
    intro _
    cases line with
    | nil => exact absurd rfl hne
    | cons c cs =>
      have hc : isWhiteSpace c = false := hhead c rfl
      have hm := matchLine_line (c :: cs) rest hne hline hrest
      simp only [List.nil_append, List.cons_append] at hm ⊢
      simp [matchSpacesLine, hc, hm]
  | cons w ws ih =>
    intro hall
    simp only [List.all_cons, Bool.and_eq_true] at hall
    simp [matchSpacesLine, hall.1, ih hall.2]

theorem matchColonSpacesLine_line (line rest ws : List Char) (colon : Bool) (hne : line ≠ [])
    (hline : ∀ c ∈ line, c ≠ newline) (hrest : rest = [] ∨ rest.head? = some newline)
    (hhead : ∀ c, line.head? = some c → isWhiteSpace c = false ∧ c ≠ Char.ofNat 58)
    (hws : ws.all isWhiteSpace = true) :
    matchColonSpacesLine ((if colon then [Char.ofNat 58] else []) ++ (ws ++ (line ++ rest)))
      = some line := by
  have hm := matchSpacesLine_line line rest hne hline hrest (fun c hc => (hhead c hc).1) ws hws
  cases colon with
  | true => simp [matchColonSpacesLine, hm]
  | false =>
    simp only [Bool.false_eq_true, if_false, List.nil_append]
    cases hx : ws ++ (line ++ rest) with
    | nil =>
      cases ws <;> cases line <;> simp_all
    | cons c cs =>
      have hc : c ≠ Char.ofNat 58 := by
        cases ws with
        | nil =>
          cases line with
          | nil => exact absurd rfl hne
          | cons l ls =>
            simp only [List.nil_append, List.cons_append, List.cons.injEq] at hx
            rw [← hx.1]
            exact (hhead l rfl).2
        | cons w ws2 =>
          simp only [List.cons_append, List.cons.injEq] at hx
          simp only [List.all_cons, Bool.and_eq_true] at hws
          intro hcw
          rw [← hx.1] at hcw
          rw [hcw] at hws
          have : isWhiteSpace (Char.ofNat 58) = false := by decide
          rw [this] at hws
          exact absurd hws.1 (by decide)
      rw [hx] at hm
      simp [matchColonSpacesLine, hc, hm]

/-- C15 as stated fails: after a heading with an empty body the result is the
heading of the following section, and a body of two lines is cut at the end
of its first line, not at the blank line. -/
theorem extractSection_boundary_counterexample :
    extractSection "Executive summary:\n\nKey discussion points:\n- a" "Executive summary"
      = "Key discussion points:"
    ∧ extractSection "Executive summary: We met.\nWe agreed.\n\nKey discussion points:\n- a"
        "Executive summary" = "We met." := by
  decide

/-- C15, amended: when the first occurrence of the heading, in any letter
case, is followed by an optional colon, by any white space (line breaks and
blank lines included) and then by a non-empty run of characters that ends at a
line break or at the end of the text, `extractSection` returns that run with
the white space at its ends removed. The white space is skipped before the
run begins, so after an empty body the run is the next non-empty line. -/
theorem extractSection_first_line (heading before mid ws line rest : List Char) (colon : Bool)
    (hplain : isPlainName heading = true)
    (hmid : mid.map foldCase = heading.map foldCase)
    (hbefore : ∀ i, i < before.length →
      headingAtHead heading
        ((before ++ (mid ++ ((if colon then [Char.ofNat 58] else []) ++
          (ws ++ (line ++ rest))))).drop i) = false)
    (hws : ws.all isWhiteSpace = true)
    (hne : line ≠ [])
    (hline : ∀ c ∈ line, c ≠ newline)
    (hhead : ∀ c, line.head? = some c → isWhiteSpace c = false ∧ c ≠ Char.ofNat 58)
    (hrest : rest = [] ∨ rest.head? = some newline) :
    extractSection
        (String.mk (before ++ (mid ++ ((if colon then [Char.ofNat 58] else []) ++
          (ws ++ (line ++ rest))))))
        (String.mk heading)
      = String.mk (trim line) := by
  have _ := hplain
  have hk := matchColonSpacesLine_line line rest ws colon hne hline hrest hhead hws
  have hf := firstMatch_at_first_heading heading before mid _ matchColonSpacesLine line
    hmid hbefore hk
  unfold extractSection
  show (match firstMatch (fun t => (matchLiteral heading t).bind matchColonSpacesLine)
      (before ++ (mid ++ ((if colon then [Char.ofNat 58] else []) ++ (ws ++ (line ++ rest)))))
    with
    | some group => String.mk (trim group)
    | none => "") = _
  rw [hf]

/-- C15, amended, on a response whose heading is in capitals. -/
theorem extractSection_first_line_witness :
    isPlainName "Executive summary".toList = true
    ∧ extractSection
        (String.mk ("1. ".toList ++ ("EXECUTIVE SUMMARY".toList ++
          ((if true then [Char.ofNat 58] else []) ++
            (" ".toList ++ ("We met. ".toList ++ "\nWe agreed.".toList))))))
        (String.mk "Executive summary".toList)
      = String.mk (trim "We met. ".toList) :=
  ⟨by decide,
   extractSection_first_line "Executive summary".toList "1. ".toList
     "EXECUTIVE SUMMARY".toList " ".toList "We met. ".toList "\nWe agreed.".toList true
     (by decide) (by decide) (by decide) (by decide) (by decide) (by decide)
     (by intro c h; cases h; decide) (by decide)⟩

/-! ### The lines that `extractList` returns -/

theorem dropWhile_spaces (block : List Char)
    (hhead : ∀ c, block.head? = some c → isWhiteSpace c = false) :
    ∀ ws : List Char, ws.all isWhiteSpace = true →
      (ws ++ block).dropWhile isWhiteSpace = block := by
  intro ws
  induction ws with
  | nil =>
    intro _
    cases block with
    | nil => rfl
    | cons c cs => simp [List.dropWhile_cons, hhead c rfl]
  | cons w ws ih =>
    intro hall
    simp only [List.all_cons, Bool.and_eq_true] at hall
    simp [List.dropWhile_cons, hall.1, ih hall.2]

theorem lazyUntilBlankLine_cons (c : Char) (text : List Char) (hc : c ≠ newline) :
    lazyUntilBlankLine (c :: text) = c :: lazyUntilBlankLine text := by
  cases text with
  | nil => rfl
  | cons d ds => simp [lazyUntilBlankLine, hc]

theorem lazyUntilBlankLine_line (line text : List Char) (hline : ∀ c ∈ line, c ≠ newline) :
    lazyUntilBlankLine (line ++ text) = line ++ lazyUntilBlankLine text := by
  induction line with
  | nil => rfl
  | cons c cs ih =>
    rw [List.cons_append, lazyUntilBlankLine_cons c _ (hline c (by simp)),
      ih (fun d hd => hline d (by simp [hd]))]
    rfl

theorem joinLines_head (first : List Char) (others : List (List Char)) (c : Char)
    (h : first.head? = some c) :
    ∃ cs, joinLines (first :: others) = c :: cs := by
  cases first with
  | nil => simp at h
  | cons d ds =>
    simp only [List.head?_cons, Option.some.injEq] at h
    subst h
    cases others with
    | nil => exact ⟨ds, rfl⟩
    | cons o os => exact ⟨ds ++ newline :: joinLines (o :: os), rfl⟩

theorem lazyUntilBlankLine_block (rest : List Char)
    (hrest : rest = [] ∨ ∃ r, rest = newline :: newline :: r) :
    ∀ (others : List (List Char)) (first : List Char),
      (∀ l ∈ first :: others, l ≠ [] ∧ ∀ c ∈ l, c ≠ newline) →
      lazyUntilBlankLine (joinLines (first :: others) ++ rest) = joinLines (first :: others) := by
  have hr : lazyUntilBlankLine rest = [] := by
    rcases hrest with h | ⟨r, h⟩
    · rw [h]; rfl
    · rw [h]; simp [lazyUntilBlankLine]
  intro others
  induction others with
  | nil =>
    intro first h
    show lazyUntilBlankLine (first ++ rest) = first
    rw [lazyUntilBlankLine_line first rest (h first (by simp)).2, hr, List.append_nil]
  | cons next others ih =>
    intro first h
    have hn := h next (by simp)
    have ih2 := ih next (fun l hl => h l (by simp [List.mem_cons] at hl ⊢; tauto))
    show lazyUntilBlankLine ((first ++ newline :: joinLines (next :: others)) ++ rest)
      = first ++ newline :: joinLines (next :: others)
    rw [List.append_assoc, lazyUntilBlankLine_line first _ (h first (by simp)).2,
      List.cons_append]
    obtain ⟨d, ds, hx⟩ : ∃ d ds, next = d :: ds := by
      cases hnx : next with
      | nil => exact absurd hnx hn.1
      | cons d ds => exact ⟨d, ds, rfl⟩
    obtain ⟨cs, hcs⟩ := joinLines_head next others d (by rw [hx]; rfl)
    have hd : d ≠ newline := hn.2 d (by rw [hx]; simp)
    rw [hcs] at ih2 ⊢
    rw [List.cons_append] at ih2 ⊢
    have : lazyUntilBlankLine (newline :: d :: (cs ++ rest))
        = newline :: lazyUntilBlankLine (d :: (cs ++ rest)) := by
      simp [lazyUntilBlankLine, hd]
    rw [this, ih2]

theorem splitLines_ne_nil (text : List Char) : splitLines text ≠ [] := by
  induction text with
  | nil => simp [splitLines]
  | cons c cs ih =>
    unfold splitLines
    by_cases hc : c = newline
    · simp [hc]
    · simp only [beq_iff_eq, hc, if_false]
      cases h : splitLines cs with
      | nil => exact absurd h ih
      | cons l ls => simp

theorem splitLines_line (line text : List Char) (hline : ∀ c ∈ line, c ≠ newline)
    (l : List Char) (ls : List (List Char)) (h : splitLines text = l :: ls) :
    splitLines (line ++ text) = (line ++ l) :: ls := by
  induction line with
  | nil => simpa using h
  | cons c cs ih =>
    have hc : c ≠ newline := hline c (by simp)
    have := ih (fun d hd => hline d (by simp [hd]))
    rw [List.cons_append]
    unfold splitLines
    simp [hc, this]

theorem splitLines_joinLines :
    ∀ (others : List (List Char)) (first : List Char),
      (∀ l ∈ first :: others, ∀ c ∈ l, c ≠ newline) →
      splitLines (joinLines (first :: others)) = first :: others := by
  intro others
  induction others with
  | nil =>
    intro first h
    have := splitLines_line first [] (h first (by simp)) [] [] rfl
    simpa [joinLines] using this
  | cons next others ih =>
    intro first h
    have ih2 := ih next (fun l hl => h l (by simp [List.mem_cons] at hl ⊢; tauto))
    have h2 : splitLines (newline :: joinLines (next :: others)) = [] :: next :: others := by
      rw [splitLines]
      simp [ih2]
    have := splitLines_line first _ (h first (by simp)) [] _ h2
    simpa [joinLines] using this

theorem head_ne_colon (ws block : List Char) (c : Char) (cs : List Char)
    (hws : ws.all isWhiteSpace = true)
    (hhead : ∀ d, block.head? = some d → d ≠ Char.ofNat 58)
    (hne : block ≠ []) (hx : ws ++ block = c :: cs) : c ≠ Char.ofNat 58 := by
  cases ws with
  | nil =>
    cases block with
    | nil => exact absurd rfl hne
    | cons l ls =>
      simp only [List.nil_append, List.cons.injEq] at hx
      rw [← hx.1]
      exact hhead l rfl
  | cons w ws2 =>
    simp only [List.cons_append, List.cons.injEq] at hx
    simp only [List.all_cons, Bool.and_eq_true] at hws
    intro hcw
    rw [← hx.1] at hcw
    rw [hcw] at hws
    have : isWhiteSpace (Char.ofNat 58) = false := by decide
    rw [this] at hws
    exact absurd hws.1 (by decide)

theorem matchColonSpacesBlock_block (ws block rest : List Char) (colon : Bool)
    (hws : ws.all isWhiteSpace = true) (hne : block ≠ [])
    (hhead : ∀ d, block.head? = some d → isWhiteSpace d = false ∧ d ≠ Char.ofNat 58) :
    matchColonSpacesBlock ((if colon then [Char.ofNat 58] else []) ++ (ws ++ (block ++ rest)))
      = some (lazyUntilBlankLine (block ++ rest)) := by
  have hhead2 : ∀ d, (block ++ rest).head? = some d → isWhiteSpace d = false := by
    intro d hd
    cases block with
    | nil => exact absurd rfl hne
    | cons b bs => exact (hhead d (by simpa using hd)).1
  have hd := dropWhile_spaces (block ++ rest) hhead2 ws hws
  cases colon with
  | true => simp [matchColonSpacesBlock, hd]
  | false =>
    simp only [Bool.false_eq_true, if_false, List.nil_append]
    cases hx : ws ++ (block ++ rest) with
    | nil => cases ws <;> cases block <;> simp_all
    | cons c cs =>
      have hx2 : ws ++ block ++ rest = c :: cs := by rw [List.append_assoc]; exact hx
      have hc : c ≠ Char.ofNat 58 := by
        cases hb : ws ++ block with
        | nil => cases ws <;> cases block <;> simp_all
        | cons e es =>
          have he := head_ne_colon ws block e es hws (fun d h => (hhead d h).2) hne hb
          rw [hb] at hx2
          simp only [List.cons_append, List.cons.injEq] at hx2
          rw [← hx2.1]
          exact he
      rw [hx] at hd
      simp [matchColonSpacesBlock, hc, hd]

/-- C16 as stated fails: a section that follows without a blank line is part
of the list, and bullets that come after a blank line below the heading are
returned although the section ends at that blank line. -/
theorem extractList_boundary_counterexample :
    extractList "Key discussion points:\n- a\nDecisions made:\n- ship" "Key discussion points"
      = ["- a", "- ship"]
    ∧ extractList "Key discussion points:\n\n- a\n\nDecisions made:\n- ship"
        "Key discussion points" = ["- a"] := by
  decide

/-- C16, amended: when the first occurrence of the heading, in any letter
case, is followed by an optional colon, by any white space (line breaks and
blank lines included) and then by a block of non-empty lines that ends at the
first blank line or at the end of the text, `extractList` returns, in their
order, exactly the lines of the block that begin, after leading white space,
with a hyphen. The lines of a following section that is not set off by a blank
line belong to the block. Lines that begin with the bullet character are left
out of this statement. -/
theorem extractList_hyphen_lines (heading before mid ws first rest : List Char)
    (others : List (List Char)) (colon : Bool)
    (hplain : isPlainName heading = true)
    (hmid : mid.map foldCase = heading.map foldCase)
    (hbefore : ∀ i, i < before.length →
      headingAtHead heading
        ((before ++ (mid ++ ((if colon then [Char.ofNat 58] else []) ++
          (ws ++ (joinLines (first :: others) ++ rest))))).drop i) = false)
    (hws : ws.all isWhiteSpace = true)
    (hlines : ∀ l ∈ first :: others, l ≠ [] ∧ ∀ c ∈ l, c ≠ newline)
    (hhead : ∀ c, first.head? = some c → isWhiteSpace c = false ∧ c ≠ Char.ofNat 58)
    (hrest : rest = [] ∨ ∃ r, rest = newline :: newline :: r)
    (hbullet : ∀ l ∈ first :: others,
      [Char.ofNat 226, Char.ofNat 8364, Char.ofNat 162].isPrefixOf (trim l) = false
      ∧ [Char.ofNat 8226].isPrefixOf (trim l) = false) :
    extractList
        (String.mk (before ++ (mid ++ ((if colon then [Char.ofNat 58] else []) ++
          (ws ++ (joinLines (first :: others) ++ rest))))))
        (String.mk heading)
      = ((first :: others).filter beginsWithHyphen).map String.mk := by
  have _ := hplain
  have hfirst := hlines first (by simp)
  obtain ⟨c, cs, hc⟩ : ∃ c cs, first = c :: cs := by
    cases hf : first with
    | nil => exact absurd hf hfirst.1
    | cons c cs => exact ⟨c, cs, rfl⟩
  obtain ⟨js, hjs⟩ := joinLines_head first others c (by rw [hc]; rfl)
  have hbne : joinLines (first :: others) ≠ [] := by rw [hjs]; simp
  have hbhead : ∀ d, (joinLines (first :: others)).head? = some d →
      isWhiteSpace d = false ∧ d ≠ Char.ofNat 58 := by
    intro d hd
    rw [hjs] at hd
    simp only [List.head?_cons, Option.some.injEq] at hd
    exact hhead d (by rw [hc, ← hd]; rfl)
  have hk := matchColonSpacesBlock_block ws (joinLines (first :: others)) rest colon hws hbne
    hbhead
  rw [lazyUntilBlankLine_block rest hrest others first hlines] at hk
  have hf := firstMatch_at_first_heading heading before mid _ matchColonSpacesBlock _
    hmid hbefore hk
  unfold extractList
  show (match firstMatch (fun t => (matchLiteral heading t).bind matchColonSpacesBlock)
      (before ++ (mid ++ ((if colon then [Char.ofNat 58] else []) ++
        (ws ++ (joinLines (first :: others) ++ rest)))))
    with
    | some group => ((splitLines group).filter isBulletLine).map String.mk
    | none => []) = _
  rw [hf]
  show ((splitLines (joinLines (first :: others))).filter isBulletLine).map String.mk = _
  rw [splitLines_joinLines others first (fun l hl => (hlines l hl).2)]
  congr 1
  apply List.filter_congr
  intro l hl
  simp [isBulletLine, beginsWithHyphen, (hbullet l hl).1]

/-- C16, amended, on a response with two key points and a remark. -/
theorem extractList_hyphen_lines_witness :
    isPlainName "Key discussion points".toList = true
    ∧ extractList
        (String.mk ("Summary.\n\n".toList ++ ("KEY DISCUSSION POINTS".toList ++
          ((if true then [Char.ofNat 58] else []) ++
            ("\n".toList ++ (joinLines ("- budget".toList :: ["remark".toList, "  - hiring".toList])
              ++ "\n\nDecisions made:\n- ship".toList))))))
        (String.mk "Key discussion points".toList)
      = (("- budget".toList :: ["remark".toList, "  - hiring".toList]).filter
          beginsWithHyphen).map String.mk :=
  ⟨by decide,
   extractList_hyphen_lines "Key discussion points".toList "Summary.\n\n".toList
     "KEY DISCUSSION POINTS".toList "\n".toList "- budget".toList
     "\n\nDecisions made:\n- ship".toList ["remark".toList, "  - hiring".toList] true
     (by decide) (by decide) (by decide) (by decide) (by decide)
     (by intro c h; cases h; decide)
     (Or.inr ⟨"Decisions made:\n- ship".toList, by decide⟩) (by decide)⟩

/-! ### The action items that are persisted -/

theorem mapM_ok_of_forall {α β : Type} (f : α → Except JsError β) (g : α → β) :
    ∀ items : List α, (∀ item ∈ items, f item = .ok (g item)) →
      items.mapM f = .ok (items.map g) := by
  intro items
  induction items with
  | nil => intro _; rfl
  | cons a rest ih =>
    intro h
    have h1 := h a (by simp)
    have h2 := ih (fun item hi => h item (by simp [hi]))
    rw [List.mapM_cons, h1, h2]
    rfl

theorem prop_of_ne_null (key : String) (value : Json) (h : value ≠ .null) :
    value.prop key = .ok (value.get key) := by
  cases value <;> first | exact absurd rfl h | rfl

/-- The calls of `processRealtimeInsights` once the response has been parsed. -/
theorem insights_calls_of_parsed (jsonParse : String → Except JsError Json)
    (newDate : Json → JsDate) (meetingId : String) (buffer : List TranscriptData)
    (completion : Except JsError Completion) (createMany : Except JsError Unit)
    (insights : Json) (h : parsedInsights jsonParse completion = .ok insights) :
    (processRealtimeInsights jsonParse newDate meetingId buffer completion createMany).calls
      = .chatCompletionsCreate (insightsPrompt (recentText buffer)) true
        :: .broadcast meetingId (.INSIGHTS insights)
        :: (Run.tryCatch
            (do
              let actionItems ← Run.lift (insights.prop "actionItems")
              if lengthTruthy actionItems then
                let data ← Run.lift (actionItemRows newDate meetingId actionItems)
                Run.await (.actionItemCreateMany data) createMany)
            (fun _ => Run.call .consoleError)).calls := by
  cases completion with
  | error e => simp [parsedInsights, bind, Except.bind] at h
  | ok c =>
    cases hm : messageContent c with
    | error e => simp [parsedInsights, bind, Except.bind, hm] at h
    | ok content =>
      cases hp : jsonParse (content.getD "null") with
      | error e => simp [parsedInsights, bind, Except.bind, hm, hp] at h
      | ok parsed =>
        have hi : parsed = insights := by
          simpa [parsedInsights, bind, Except.bind, hm, hp] using h
        subst hi
        simp only [processRealtimeInsights, Run.tryCatch, Run.await, Run.lift, Run.call,
          Run.bind, bind, hm, hp]
        cases (parsed.prop "actionItems") with
        | error e => simp
        | ok actionItems =>
          simp only []
          cases lengthTruthy actionItems with
          | false => simp [pure, Run.ret]
          | true =>
            simp only [if_true]
            cases (actionItemRows newDate meetingId actionItems) with
            | error e => simp
            | ok data => cases createMany <;> simp

/-- C17 as stated fails: the deadline `next Friday`, which is no date, is
stored as an invalid `Date`, not as absent; a date is stored as its time
value and an empty deadline as absent. -/
theorem unparseable_deadline_counterexample :
    (actionItemWrites (processRealtimeInsights deadlineParse deadlineDate "m1" []
        (.ok ⟨[⟨some "\x7b\"actionItems\":[\x7b\"task\":\"Ship\",\"deadline\":\"next Friday\"\x7d,\x7b\"task\":\"Docs\",\"deadline\":\"2024-05-01\"\x7d,\x7b\"task\":\"Call\",\"deadline\":\"\"\x7d]\x7d"⟩]⟩)
        (.ok ())).calls).map (fun rows => rows.map (fun row => (row.status, row.deadline)))
      = [[("PENDING", some .invalid), ("PENDING", some (.valid 1714521600000)),
          ("PENDING", none)]] := by
  decide

/-- C17, amended: when the parsed response is not `null`, a non-empty
`actionItems` array of items none of which is `null` is written in one call,
one row per item in order, each with the status `PENDING`, the task and owner
of the item, and as deadline the value `new Date(deadline)` when the item has a
truthy deadline, whatever that value is, and `null` when the deadline is
missing or empty. When `actionItems` is missing or an empty array, nothing is
written. -/
theorem action_items_persisted (jsonParse : String → Except JsError Json)
    (newDate : Json → JsDate) (meetingId : String) (buffer : List TranscriptData)
    (completion : Except JsError Completion) (createMany : Except JsError Unit)
    (insights : Json) (h : parsedInsights jsonParse completion = .ok insights)
    (hnull : insights ≠ .null) :
    (∀ items : List Json, insights.get "actionItems" = some (.arr items) → items ≠ [] →
      (∀ item ∈ items, item ≠ .null) →
      actionItemWrites (processRealtimeInsights jsonParse newDate meetingId buffer completion
        createMany).calls
        = [items.map (fun item =>
            { meetingId := meetingId, task := item.get "task", owner := item.get "owner",
              deadline := (match item.get "deadline" with
                | some d => if d.truthy then some (newDate d) else none
                | none => none),
              status := "PENDING" })])
    ∧ ((insights.get "actionItems" = none ∨ insights.get "actionItems" = some (.arr [])) →
      actionItemWrites (processRealtimeInsights jsonParse newDate meetingId buffer completion
        createMany).calls = []) := by
  have hc := insights_calls_of_parsed jsonParse newDate meetingId buffer completion createMany
    insights h
  have hp := prop_of_ne_null "actionItems" insights hnull
  constructor
  · intro items hitems hne hall
    have hl : lengthTruthy (some (.arr items)) = true := by
      cases items with
      | nil => exact absurd rfl hne
      | cons a rest => simp [lengthTruthy]
    have hrows : actionItemRows newDate meetingId (some (.arr items))
        = .ok (items.map (fun item =>
            { meetingId := meetingId, task := item.get "task", owner := item.get "owner",
              deadline := (match item.get "deadline" with
                | some d => if d.truthy then some (newDate d) else none
                | none => none),
              status := "PENDING" })) := by
      unfold actionItemRows
      apply mapM_ok_of_forall
      intro item hi
      have hn := hall item hi
      simp [actionItemRow, prop_of_ne_null _ item hn, bind, Except.bind, pure, Except.pure]
    rw [hc, hp, hitems]
    cases createMany <;>
      simp [actionItemWrites, Run.tryCatch, Run.lift, Run.await, Run.call, Run.bind, bind, hl,
        hrows]
  · intro hmiss
    rw [hc, hp]
    rcases hmiss with hm | hm <;> rw [hm] <;>
      simp [actionItemWrites, Run.tryCatch, Run.lift, Run.bind, Run.ret, bind, pure,
        lengthTruthy]

/-- C17, amended, on the response with three action items. -/
theorem action_items_persisted_witness :
    parsedInsights deadlineParse
        (.ok ⟨[⟨some "\x7b\"actionItems\":[\x7b\"task\":\"Ship\",\"deadline\":\"next Friday\"\x7d,\x7b\"task\":\"Docs\",\"deadline\":\"2024-05-01\"\x7d,\x7b\"task\":\"Call\",\"deadline\":\"\"\x7d]\x7d"⟩]⟩)
      = .ok (.obj [("actionItems", .arr
          [.obj [("task", .str "Ship"), ("deadline", .str "next Friday")],
           .obj [("task", .str "Docs"), ("deadline", .str "2024-05-01")],
           .obj [("task", .str "Call"), ("deadline", .str "")]])])
    ∧ (actionItemWrites (processRealtimeInsights deadlineParse deadlineDate "m1" []
        (.ok ⟨[⟨some "\x7b\"actionItems\":[\x7b\"task\":\"Ship\",\"deadline\":\"next Friday\"\x7d,\x7b\"task\":\"Docs\",\"deadline\":\"2024-05-01\"\x7d,\x7b\"task\":\"Call\",\"deadline\":\"\"\x7d]\x7d"⟩]⟩)
        (.ok ())).calls).length = 1 := by
  have h := (action_items_persisted deadlineParse deadlineDate "m1" []
    (.ok ⟨[⟨some "\x7b\"actionItems\":[\x7b\"task\":\"Ship\",\"deadline\":\"next Friday\"\x7d,\x7b\"task\":\"Docs\",\"deadline\":\"2024-05-01\"\x7d,\x7b\"task\":\"Call\",\"deadline\":\"\"\x7d]\x7d"⟩]⟩)
    (.ok ()) _ rfl (by intro hx; cases hx)).1 _ rfl (by simp)
    (by intro item hi; simp at hi; rcases hi with hi | hi | hi <;> rw [hi] <;> intro hx <;> cases hx)
  exact ⟨rfl, by rw [h]; rfl⟩

/-! ### An extraction that settles after the session is closed -/

theorem deliveriesOf_congr (st st2 : AudioStreamHandler) (h : st.clients = st2.clients) :
    ∀ calls : List Call, deliveriesOf st calls = deliveriesOf st2 calls := by
  intro calls
  induction calls with
  | nil => rfl
  | cons c rest ih => cases c <;> simp [deliveriesOf, ih, h]

theorem finalizeMeeting_clients (st : AudioStreamHandler) (meetingId : String)
    (buffer : List TranscriptData) (env : FinalizeEnv) :
    (finalizeMeeting st meetingId buffer env).1.clients = st.clients := by
  simp only [finalizeMeeting]
  split <;> rfl

/-- The statements after the broadcast of line 142 make no broadcast. -/
theorem deliveriesOf_after_broadcast (st : AudioStreamHandler) (newDate : Json → JsDate)
    (meetingId : String) (insights : Json) (createMany : Except JsError Unit) :
    deliveriesOf st (Run.tryCatch
        (do
          let actionItems ← Run.lift (insights.prop "actionItems")
          if lengthTruthy actionItems then
            let data ← Run.lift (actionItemRows newDate meetingId actionItems)
            Run.await (.actionItemCreateMany data) createMany)
        (fun _ => Run.call .consoleError)).calls = [] := by
  cases (insights.prop "actionItems") with
  | error e => simp [Run.tryCatch, Run.lift, Run.call, Run.bind, bind, deliveriesOf]
  | ok actionItems =>
    cases hl : lengthTruthy actionItems with
    | false =>
      simp [Run.tryCatch, Run.lift, Run.call, Run.bind, Run.ret, bind, pure, hl, deliveriesOf]
    | true =>
      cases hr : actionItemRows newDate meetingId actionItems with
      | error e =>
        simp [Run.tryCatch, Run.lift, Run.call, Run.bind, bind, hl, hr, deliveriesOf]
      | ok data =>
        cases createMany <;>
          simp [Run.tryCatch, Run.lift, Run.call, Run.await, Run.bind, bind, hl, hr,
            deliveriesOf]

theorem step_close_clients (st : AudioStreamHandler) (conn : Nat) (env : FinalizeEnv) :
    (st.step (.close conn env)).clients = st.clients := by
  simp only [AudioStreamHandler.step]
  split
  · exact finalizeMeeting_clients _ _ _ _
  · rfl

/-- The write of a non-empty array of action items none of which is `null`. -/
theorem writes_of_items (jsonParse : String → Except JsError Json)
    (newDate : Json → JsDate) (meetingId : String) (buffer : List TranscriptData)
    (completion : Except JsError Completion) (createMany : Except JsError Unit)
    (insights : Json) (items : List Json)
    (h : parsedInsights jsonParse completion = .ok insights)
    (hitems : insights.get "actionItems" = some (.arr items)) (hne : items ≠ [])
    (hall : ∀ item ∈ items, item ≠ .null) :
    actionItemWrites (processRealtimeInsights jsonParse newDate meetingId buffer completion
      createMany).calls
      = [items.map (fun item =>
          { meetingId := meetingId, task := item.get "task", owner := item.get "owner",
            deadline := (match item.get "deadline" with
              | some d => if d.truthy then some (newDate d) else none
              | none => none),
            status := "PENDING" })] := by
  have hnull : insights ≠ .null := by
    intro hn
    rw [hn] at hitems
    simp [Json.get] at hitems
  have hc := insights_calls_of_parsed jsonParse newDate meetingId buffer completion createMany
    insights h
  have hp := prop_of_ne_null "actionItems" insights hnull
  have hl : lengthTruthy (some (.arr items)) = true := by
    cases items with
    | nil => exact absurd rfl hne
    | cons a rest => simp [lengthTruthy]
  have hrows : actionItemRows newDate meetingId (some (.arr items))
      = .ok (items.map (fun item =>
          { meetingId := meetingId, task := item.get "task", owner := item.get "owner",
            deadline := (match item.get "deadline" with
              | some d => if d.truthy then some (newDate d) else none
              | none => none),
            status := "PENDING" })) := by
    unfold actionItemRows
    apply mapM_ok_of_forall
    intro item hi
    have hn := hall item hi
    simp [actionItemRow, prop_of_ne_null _ item hn, bind, Except.bind, pure, Except.pure]
  rw [hc, hp, hitems]
  cases createMany <;>
    simp [actionItemWrites, Run.tryCatch, Run.lift, Run.await, Run.call, Run.bind, bind, hl,
      hrows]

/-- C18 as stated fails: on a server where the meeting `m1` has no entry in
`activeStreams`, an extraction for `m1` that receives its result broadcasts
the INSIGHTS message, which the open client receives, and writes the action
item. The same happens after the socket of `m1` has closed and
`finalizeMeeting` has stored the meeting as completed. -/
theorem late_insights_counterexample :
    mapGet serverWithoutEntry.activeStreams "m1" = none
    ∧ (processRealtimeInsights exampleParse (fun _ => .invalid) "m1" []
        (.ok ⟨[⟨some "\x7b\"actionItems\":[\x7b\"task\":\"Ship v2\"\x7d]\x7d"⟩]⟩)
        (.ok ())).calls.any Call.isInsights = true
    ∧ (processRealtimeInsights exampleParse (fun _ => .invalid) "m1" []
        (.ok ⟨[⟨some "\x7b\"actionItems\":[\x7b\"task\":\"Ship v2\"\x7d]\x7d"⟩]⟩)
        (.ok ())).calls.any Call.isActionItemWrite = true
    ∧ (deliveriesOf serverWithoutEntry
        (processRealtimeInsights exampleParse (fun _ => .invalid) "m1" []
          (.ok ⟨[⟨some "\x7b\"actionItems\":[\x7b\"task\":\"Ship v2\"\x7d]\x7d"⟩]⟩)
          (.ok ())).calls).map (fun d => d.client) = [⟨1, "m1", 1⟩]
    ∧ (meetingUpdates (finalizeMeeting serverWithClient "m1" [] succeedingEnv).2.calls).map
        (fun u => u.2.status) = ["COMPLETED"]
    ∧ (deliveriesOf (serverWithClient.run [.close 0 succeedingEnv])
        (processRealtimeInsights exampleParse (fun _ => .invalid) "m1" []
          (.ok ⟨[⟨some "\x7b\"actionItems\":[\x7b\"task\":\"Ship v2\"\x7d]\x7d"⟩]⟩)
          (.ok ())).calls).map (fun d => d.client) = [⟨1, "m1", 1⟩] := by
  decide

/-- C18, amended: `processRealtimeInsights` does not consult `activeStreams`,
and nothing cancels an extraction. Whenever the response parses, on every
state of the server, the INSIGHTS message is broadcast and delivered to every
open client, and a non-empty `actionItems` array of items none of which is
`null` is written; the deliveries are the same on every server with the same
clients, whatever `activeStreams` holds, and the same after the socket of a
connection has closed. -/
theorem insights_ignore_session_state (jsonParse : String → Except JsError Json)
    (newDate : Json → JsDate) (meetingId : String) (buffer : List TranscriptData)
    (completion : Except JsError Completion) (createMany : Except JsError Unit)
    (insights : Json) (st : AudioStreamHandler)
    (h : parsedInsights jsonParse completion = .ok insights) :
    (processRealtimeInsights jsonParse newDate meetingId buffer completion
        createMany).calls.any Call.isInsights = true
    ∧ deliveriesOf st (processRealtimeInsights jsonParse newDate meetingId buffer completion
        createMany).calls = broadcast st.clients meetingId (.INSIGHTS insights)
    ∧ (∀ items : List Json, insights.get "actionItems" = some (.arr items) → items ≠ [] →
        (∀ item ∈ items, item ≠ .null) →
        actionItemWrites (processRealtimeInsights jsonParse newDate meetingId buffer completion
          createMany).calls
          = [items.map (fun item =>
              { meetingId := meetingId, task := item.get "task", owner := item.get "owner",
                deadline := (match item.get "deadline" with
                  | some d => if d.truthy then some (newDate d) else none
                  | none => none),
                status := "PENDING" })])
    ∧ (∀ st2 : AudioStreamHandler, st2.clients = st.clients →
        deliveriesOf st2 (processRealtimeInsights jsonParse newDate meetingId buffer completion
          createMany).calls
          = deliveriesOf st (processRealtimeInsights jsonParse newDate meetingId buffer
              completion createMany).calls)
    ∧ (∀ (conn : Nat) (env : FinalizeEnv),
        deliveriesOf (st.step (.close conn env))
            (processRealtimeInsights jsonParse newDate meetingId buffer completion
              createMany).calls
          = deliveriesOf st (processRealtimeInsights jsonParse newDate meetingId buffer
              completion createMany).calls) := by
  have hc := insights_calls_of_parsed jsonParse newDate meetingId buffer completion createMany
    insights h
  refine ⟨?_, ?_, ?_, ?_, ?_⟩
  · rw [hc]
    simp [Call.isInsights]
  · rw [hc]
    simp only [deliveriesOf]
    rw [deliveriesOf_after_broadcast]
    simp
  · intro items hitems hne hall
    exact writes_of_items jsonParse newDate meetingId buffer completion createMany insights
      items h hitems hne hall
  · intro st2 h2
    exact deliveriesOf_congr _ _ h2 _
  · intro conn env
    exact deliveriesOf_congr _ _ (step_close_clients st conn env) _

/-- C18, amended, on the server where `m1` has no entry. -/
theorem insights_ignore_session_state_witness :
    parsedInsights exampleParse
        (.ok ⟨[⟨some "\x7b\"actionItems\":[\x7b\"task\":\"Ship v2\"\x7d]\x7d"⟩]⟩)
      = .ok (.obj [("actionItems", .arr [.obj [("task", .str "Ship v2")]])])
    ∧ mapGet serverWithoutEntry.activeStreams "m1" = none
    ∧ deliveriesOf serverWithoutEntry
        (processRealtimeInsights exampleParse (fun _ => .invalid) "m1" []
          (.ok ⟨[⟨some "\x7b\"actionItems\":[\x7b\"task\":\"Ship v2\"\x7d]\x7d"⟩]⟩)
          (.ok ())).calls
      = broadcast serverWithoutEntry.clients "m1"
          (.INSIGHTS (.obj [("actionItems", .arr [.obj [("task", .str "Ship v2")]])]))
    ∧ (actionItemWrites (processRealtimeInsights exampleParse (fun _ => .invalid) "m1" []
          (.ok ⟨[⟨some "\x7b\"actionItems\":[\x7b\"task\":\"Ship v2\"\x7d]\x7d"⟩]⟩)
          (.ok ())).calls).length = 1 := by
  have h := insights_ignore_session_state exampleParse (fun _ => .invalid) "m1" []
    (.ok ⟨[⟨some "\x7b\"actionItems\":[\x7b\"task\":\"Ship v2\"\x7d]\x7d"⟩]⟩) (.ok ())
    (.obj [("actionItems", .arr [.obj [("task", .str "Ship v2")]])]) serverWithoutEntry rfl
  refine ⟨rfl, by decide, h.2.1, ?_⟩
  rw [h.2.2.1 [.obj [("task", .str "Ship v2")]] rfl (by simp)
    (by intro item hi; simp at hi; rw [hi]; intro hx; cases hx)]
  rfl

/-! ### Handlers that overlap at the storage write -/

/-- The handler run without interruption is its first part followed at once
by its second part. -/
theorem start_then_resume (meetingId : String) (buffer : List TranscriptData) (a : Arrival) :
    onTranscriptReceived meetingId buffer a =
      (match handlerStart meetingId buffer a with
       | (pushed, calls, none) => (pushed, ⟨calls, .ok ()⟩)
       | (pushed, calls, some s) =>
         (pushed, ⟨calls ++ (handlerResume meetingId pushed s).calls,
                   (handlerResume meetingId pushed s).result⟩)) := by
  unfold onTranscriptReceived handlerStart
  cases buildTranscriptData meetingId a with
  | none => rfl
  | some t =>
    by_cases hf : t.isFinal
    · simp only [hf, if_true]
      cases hw : a.write <;>
        simp [handlerResume, Run.await, Run.lift, Run.bind, bind, hw]
    · simp [hf, Run.call]

/-- C19 fails on the code: when the handler of the sixth final segment starts
while the handler of the fifth awaits its storage write, the fifth handler
finds six segments when it continues and no extraction is triggered at all;
and when the fifth starts while the fourth awaits, both handlers find five
segments and the same extraction is triggered twice. -/
theorem overlapping_handlers_lose_and_repeat_trigger :
    (interleave "m1" sixthOvertakesFifth).buffer.map (fun t => t.text)
      = ["s1", "s2", "s3", "s4", "s5", "s6"]
    ∧ insightInputs (interleave "m1" sixthOvertakesFifth).calls = []
    ∧ (interleave "m1" fifthOvertakesFourth).buffer.map (fun t => t.text)
      = ["s1", "s2", "s3", "s4", "s5"]
    ∧ insightInputs (interleave "m1" fifthOvertakesFourth).calls
      = ["s1 s2 s3 s4 s5", "s1 s2 s3 s4 s5"] := by
  decide

/-! ### The payloads of the queued jobs -/

/-- C20 fails on the code: finalization adds no job to the queue. With the
meeting `m1` registered and the summary call and the meeting update resolving,
`queuePostProcessing` throws at the `require` of line 219, before either `add`,
as it does on every input; so no payload reaches a processor. The object
literal that line 227 would hand to the job `crm-sync` has the `meetingId` and
no `userId`; the one of line 222 has the `meetingId` and the summary with its
text and key points. -/
theorem finalization_queues_no_job :
    queuedJobs (finalizeMeeting twoMeetings "m1" [] succeedingEnv).2.calls = []
    ∧ (finalizeMeeting twoMeetings "m1" [] succeedingEnv).2.result = .error .referenceError
    ∧ (∀ (meetingId : String) (summary : Summary) (addFollowup addCrmSync : Except JsError Unit),
        (queuePostProcessing meetingId summary addFollowup addCrmSync).calls = []
        ∧ (queuePostProcessing meetingId summary addFollowup addCrmSync).result
            = .error .referenceError)
    ∧ (crmSyncPayload "m1").meetingId = some "m1"
    ∧ crmSyncUserId (crmSyncPayload "m1") = none
    ∧ followUpInputs (followupPayload "m1" ⟨"Done.", [], []⟩) = .ok ("Done.", "") := by
  refine ⟨by decide, rfl, ?_, rfl, rfl, rfl⟩
  intro meetingId summary addFollowup addCrmSync
  rw [queuePostProcessing_throws]
  exact ⟨rfl, rfl⟩

/-! ### The conversion of samples to 16-bit values -/

theorem pcmLoop_eq (rest : List Sample) :
    ∀ (written : List Int) (tail : List Int), rest.length ≤ tail.length →
      pcmLoop rest written.length (written ++ tail)
        = written ++ rest.map convertSample ++ tail.drop rest.length := by
  induction rest with
  | nil => intro written tail _; simp [pcmLoop]
  | cons sample rest ih =>
    intro written tail h
    cases tail with
    | nil => simp at h
    | cons t ts =>
      have hset : (written ++ t :: ts).set written.length (convertSample sample)
          = (written ++ [convertSample sample]) ++ ts := by
        simp [List.set_append]
      have hlen : (written ++ [convertSample sample]).length = written.length + 1 := by simp
      rw [pcmLoop, hset, ← hlen, ih _ ts (by simpa using h)]
      simp

theorem floatTo16BitPCM_eq_map (input : List Sample) :
    floatTo16BitPCM input = input.map convertSample := by
  have h := pcmLoop_eq input [] (List.replicate input.length 0) (by simp)
  simpa [floatTo16BitPCM] using h

theorem clamp_bounds (q : ℚ) : -1 ≤ max (-1) (min 1 q) ∧ max (-1) (min 1 q) ≤ 1 :=
  ⟨le_max_left _ _, max_le (by norm_num) (min_le_left _ _)⟩

theorem scaleSample_bounds (s : ℚ) (h : -1 ≤ s ∧ s ≤ 1) :
    -32768 ≤ scaleSample s ∧ scaleSample s ≤ 32767 := by
  unfold scaleSample
  split_ifs with hs
  · constructor <;> linarith [h.1, h.2]
  · push_neg at hs
    constructor <;> linarith [h.1, h.2]

theorem scaleSample_mono (s t : ℚ) (h : s ≤ t) : scaleSample s ≤ scaleSample t := by
  unfold scaleSample
  split_ifs with hs ht ht
  · linarith
  · push_neg at ht
    linarith
  · linarith
  · linarith

theorem truncate_bounds (x : ℚ) (h : -32768 ≤ x ∧ x ≤ 32767) :
    -32768 ≤ truncate x ∧ truncate x ≤ 32767 := by
  unfold truncate
  split_ifs with h0
  · constructor
    · have : (0 : Int) ≤ ⌊x⌋ := Int.floor_nonneg.2 h0
      omega
    · have h1 : ((⌊x⌋ : Int) : ℚ) ≤ 32767 := le_trans (Int.floor_le x) h.2
      exact_mod_cast h1
  · push_neg at h0
    constructor
    · have h1 : ((-32768 : Int) : ℚ) ≤ ((⌈x⌉ : Int) : ℚ) := by
        push_cast
        exact le_trans h.1 (Int.le_ceil x)
      exact_mod_cast h1
    · have : ⌈x⌉ ≤ 0 := Int.ceil_le.2 (by push_cast; exact le_of_lt h0)
      omega

theorem truncate_mono (x y : ℚ) (h : x ≤ y) : truncate x ≤ truncate y := by
  unfold truncate
  split_ifs with hx hy hy
  · exact Int.floor_mono h
  · exact absurd (le_trans hx h) hy
  · push_neg at hx
    have h1 : ⌈x⌉ ≤ 0 := Int.ceil_le.2 (by push_cast; exact le_of_lt hx)
    have h2 : (0 : Int) ≤ ⌊y⌋ := Int.floor_nonneg.2 hy
    omega
  · exact Int.ceil_mono h

theorem toInt16_of_range (x : ℚ) (h : -32768 ≤ x ∧ x ≤ 32767) :
    toInt16 (some x) = truncate x := by
  have hb := truncate_bounds x h
  simp only [toInt16]
  omega

theorem convertSample_finite (q : ℚ) :
    convertSample (.finite q) = truncate (scaleSample (max (-1) (min 1 q))) := by
  unfold convertSample clampSample
  exact toInt16_of_range _ (scaleSample_bounds _ (clamp_bounds q))

theorem convertSample_range (sample : Sample) :
    -32768 ≤ convertSample sample ∧ convertSample sample ≤ 32767 := by
  cases sample with
  | finite q =>
    rw [convertSample_finite]
    exact truncate_bounds _ (scaleSample_bounds _ (clamp_bounds q))
  | infinity =>
    have h : convertSample .infinity = truncate (scaleSample 1) :=
      toInt16_of_range _ (scaleSample_bounds 1 (by norm_num))
    rw [h]
    exact truncate_bounds _ (scaleSample_bounds 1 (by norm_num))
  | negInfinity =>
    have h : convertSample .negInfinity = truncate (scaleSample (-1)) :=
      toInt16_of_range _ (scaleSample_bounds (-1) (by norm_num))
    rw [h]
    exact truncate_bounds _ (scaleSample_bounds (-1) (by norm_num))
  | nan => simp [convertSample, clampSample, toInt16]

theorem truncate_intCast (z : Int) : truncate (z : ℚ) = z := by
  unfold truncate
  split_ifs <;> simp

/-- C21: `floatTo16BitPCM` stores one value per sample, in the order of the
samples, each between -32768 and 32767. For a sample that is a number the
value is the sample clamped to `[-1, 1]`, multiplied by 32768 when negative and
by 32767 otherwise, and truncated toward zero: the store into the
`Int16Array` does not wrap. The conversion is monotone; it takes 0 to 0, every
sample at most -1 to -32768 and every sample at least 1 to 32767. -/
theorem pcm_conversion (input : List Sample) :
    floatTo16BitPCM input = input.map convertSample
    ∧ (floatTo16BitPCM input).length = input.length
    ∧ (∀ i : Nat, (floatTo16BitPCM input)[i]? = input[i]?.map convertSample)
    ∧ (∀ y ∈ floatTo16BitPCM input, -32768 ≤ y ∧ y ≤ 32767)
    ∧ (∀ q : ℚ, convertSample (.finite q)
        = truncate (if max (-1) (min 1 q) < 0 then max (-1) (min 1 q) * 32768
            else max (-1) (min 1 q) * 32767))
    ∧ (∀ q1 q2 : ℚ, q1 ≤ q2 → convertSample (.finite q1) ≤ convertSample (.finite q2))
    ∧ convertSample (.finite 0) = 0
    ∧ (∀ q : ℚ, q ≤ -1 → convertSample (.finite q) = -32768)
    ∧ (∀ q : ℚ, 1 ≤ q → convertSample (.finite q) = 32767) := by
  have hmap := floatTo16BitPCM_eq_map input
  refine ⟨hmap, ?_, ?_, ?_, ?_, ?_, ?_, ?_, ?_⟩
  · rw [hmap, List.length_map]
  · intro i
    rw [hmap, List.getElem?_map]
  · intro y hy
    rw [hmap, List.mem_map] at hy
    obtain ⟨sample, _, rfl⟩ := hy
    exact convertSample_range sample
  · intro q
    rw [convertSample_finite]
    rfl
  · intro q1 q2 h
    rw [convertSample_finite, convertSample_finite]
    exact truncate_mono _ _ (scaleSample_mono _ _ (max_le_max le_rfl (min_le_min le_rfl h)))
  · rw [convertSample_finite]
    have h : scaleSample (max (-1) (min 1 (0 : ℚ))) = ((0 : Int) : ℚ) := by
      norm_num [scaleSample]
    rw [h, truncate_intCast]
  · intro q hq
    rw [convertSample_finite]
    have hc : max (-1) (min 1 q) = -1 := by
      rw [min_eq_right (by linarith), max_eq_left hq]
    have h : scaleSample (-1) = ((-32768 : Int) : ℚ) := by norm_num [scaleSample]
    rw [hc, h, truncate_intCast]
  · intro q hq
    rw [convertSample_finite]
    have hc : max (-1) (min 1 q) = 1 := by
      rw [min_eq_left hq, max_eq_right (by norm_num)]
    have h : scaleSample 1 = ((32767 : Int) : ℚ) := by norm_num [scaleSample]
    rw [hc, h, truncate_intCast]

end MeetingMind
